import Mathlib

/-!
Verification of the ACL rule-resolution and rule-mutation engine of
solid-client: the access-mode algebra (`internal_getAccess`,
`internal_combineAccessModes`), rule classification and filtering, the
rule mutator (`setPublicResourceAccess` with rule splitting and
empty-rule garbage collection), the fallback-ACL resolver, and the
ACL-attachment predicates (`hasResourceAcl`, `getResourceAcl`).

The underlying statement store (Things made of subject/predicate/object
statements) is an external collaborator of the core; it is modelled from
the spec as a list of quads per subject, with the usual add/remove/query
operations. Everything else is translated from the source modules
`src/acl/acl.ts`, `src/acl/class.ts` and `src/acl/group.ts`.
-/

/-- IRIs are plain strings. -/
abbrev Iri := String

/-- Modelled from the spec: one subject-predicate-object statement of the
generic statement store (the subject is implicit: quads live inside a
`Thing`). Objects are modelled as IRIs, which is all the ACL engine reads. -/
structure Quad where
  predicate : Iri
  object : Iri
  deriving DecidableEq, Repr

/-- Modelled from the spec: a `Thing` is all statements with a given subject
inside one dataset. Subjects are opaque identifiers, modelled as naturals
(fresh local subjects are created with identifiers unused so far). -/
structure Thing where
  subject : Nat
  quads : List Quad
  deriving DecidableEq, Repr

/-- Access mode set `{read, append, write, control}` from `interfaces.ts`
(the TypeScript type additionally constrains `write = true → append = true`;
that constraint appears as a hypothesis where a claim needs it). -/
structure Access where
  read : Bool
  append : Bool
  write : Bool
  control : Bool
  deriving DecidableEq, Repr

def rdf_type : Iri := "http://www.w3.org/1999/02/22-rdf-syntax-ns#type"

def acl_Authorization : Iri := "http://www.w3.org/ns/auth/acl#Authorization"

def acl_accessTo : Iri := "http://www.w3.org/ns/auth/acl#accessTo"

def acl_default : Iri := "http://www.w3.org/ns/auth/acl#default"

def acl_defaultForNew : Iri := "http://www.w3.org/ns/auth/acl#defaultForNew"

def acl_agent : Iri := "http://www.w3.org/ns/auth/acl#agent"

def acl_agentGroup : Iri := "http://www.w3.org/ns/auth/acl#agentGroup"

def acl_agentClass : Iri := "http://www.w3.org/ns/auth/acl#agentClass"

def acl_origin : Iri := "http://www.w3.org/ns/auth/acl#origin"

def acl_mode : Iri := "http://www.w3.org/ns/auth/acl#mode"

def foaf_Agent : Iri := "http://xmlns.com/foaf/0.1/Agent"

/-- IRI of the Read access mode (`internal_accessModeIriStrings.read`). -/
def mode_Read : Iri := "http://www.w3.org/ns/auth/acl#Read"

/-- IRI of the Append access mode. -/
def mode_Append : Iri := "http://www.w3.org/ns/auth/acl#Append"

/-- IRI of the Write access mode. -/
def mode_Write : Iri := "http://www.w3.org/ns/auth/acl#Write"

/-- IRI of the Control access mode. -/
def mode_Control : Iri := "http://www.w3.org/ns/auth/acl#Control"

/-- Modelled from the spec: query-by-subject-and-predicate of the statement
store (`getIriAll` of `thing/get.ts`, absent from the provided sources). -/
def getIriAll (t : Thing) (p : Iri) : List Iri :=
  (t.quads.filter (fun q => q.predicate == p)).map (fun q => q.object)

/-- Modelled from the spec: first object for a predicate, or `none`
(`getIri` of `thing/get.ts`, absent from the provided sources). -/
def getIri (t : Thing) (p : Iri) : Option Iri :=
  (getIriAll t p).head?

/-- Modelled from the spec: add one statement (`addIri` of `thing/add.ts`,
absent from the provided sources). -/
def addIri (t : Thing) (p o : Iri) : Thing :=
  { t with quads := t.quads ++ [⟨p, o⟩] }

/-- Modelled from the spec: remove every statement with the given predicate
(`removeAll` of `thing/remove.ts`, absent from the provided sources). -/
def removeAll (t : Thing) (p : Iri) : Thing :=
  { t with quads := t.quads.filter (fun q => !(q.predicate == p)) }

/-- Modelled from the spec: remove the statements with the given predicate
and object (`removeIri` of `thing/remove.ts`, absent from the provided
sources). -/
def removeIri (t : Thing) (p o : Iri) : Thing :=
  { t with quads := t.quads.filter (fun q => !(q.predicate == p && q.object == o)) }

/-- Modelled from the spec: set a predicate to exactly one object
(`setIri` of `thing/set.ts` removes all prior statements for the predicate,
then adds the new one). -/
def setIri (t : Thing) (p o : Iri) : Thing :=
  addIri (removeAll t p) p o

/-- Modelled from the spec: a fresh `Thing` with no statements yet
(`createThing`); the caller supplies an identifier unused so far, standing
for the freshly generated local subject name. -/
def createThing (n : Nat) : Thing :=
  ⟨n, []⟩

/-- Modelled from the spec: replace, in a dataset, all statements whose
subject is the given Thing's subject by the Thing's statements
(`setThing` of `thing/thing.ts`). -/
def setThing (d : List Thing) (t : Thing) : List Thing :=
  d.filter (fun x => !(x.subject == t.subject)) ++ [t]

/-- Modelled from the spec: remove all statements with the given Thing's
subject (`removeThing` of `thing/thing.ts`). -/
def removeThing (d : List Thing) (t : Thing) : List Thing :=
  d.filter (fun x => !(x.subject == t.subject))

/-- ACL dataset: a list of Things plus the URL of the resource it governs
(`internal_accessTo`) and its own source URL (from `internal_resourceInfo`). -/
structure AclDataset where
  things : List Thing
  internal_accessTo : Iri
  sourceIri : Iri
  deriving DecidableEq, Repr

/-- Translation of `getThingAll` specialised to ACL datasets. -/
def getThingAll (d : AclDataset) : List Thing :=
  d.things

/-- Translation of `isAclRule` (acl.ts): a Thing whose types include
`acl:Authorization`. -/
def isAclRule (t : Thing) : Bool :=
  (getIriAll t rdf_type).contains acl_Authorization

/-- Translation of `internal_getAclRules` (acl.ts). -/
def internal_getAclRules (d : AclDataset) : List Thing :=
  (getThingAll d).filter isAclRule

/-- Translation of `appliesToResource` (acl.ts). -/
def appliesToResource (rule : Thing) (resource : Iri) : Bool :=
  (getIriAll rule acl_accessTo).contains resource

/-- Translation of `internal_getResourceAclRulesForResource` (acl.ts). -/
def internal_getResourceAclRulesForResource (rules : List Thing) (resource : Iri) : List Thing :=
  rules.filter (fun rule => appliesToResource rule resource)

/-- Translation of `isDefaultForResource` (acl.ts). -/
def isDefaultForResource (rule : Thing) (resource : Iri) : Bool :=
  (getIriAll rule acl_default).contains resource ||
    (getIriAll rule acl_defaultForNew).contains resource

/-- Translation of `internal_getDefaultAclRulesForResource` (acl.ts). -/
def internal_getDefaultAclRulesForResource (rules : List Thing) (resource : Iri) : List Thing :=
  rules.filter (fun rule => isDefaultForResource rule resource)

/-- Translation of `appliesToClass` (class.ts). -/
def appliesToClass (rule : Thing) (agentClass : Iri) : Bool :=
  (getIriAll rule acl_agentClass).contains agentClass

/-- Translation of `getClassAclRulesForClass` (class.ts). -/
def getClassAclRulesForClass (rules : List Thing) (agentClass : Iri) : List Thing :=
  rules.filter (fun rule => appliesToClass rule agentClass)

/-- Translation of `internal_getAclRulesForIri` (acl.ts): rules whose
`targetType` objects (acl:agent or acl:agentGroup) include `targetIri`. -/
def internal_getAclRulesForIri (rules : List Thing) (targetIri : Iri) (targetType : Iri) : List Thing :=
  rules.filter (fun rule => (getIriAll rule targetType).contains targetIri)

/-- Translation of `internal_getAccess` (acl.ts). -/
def internal_getAccess (rule : Thing) : Access :=
  let ruleAccessModes := getIriAll rule acl_mode
  let writeAccess := ruleAccessModes.contains mode_Write
  if writeAccess then
    ⟨ruleAccessModes.contains mode_Read, true, true, ruleAccessModes.contains mode_Control⟩
  else
    ⟨ruleAccessModes.contains mode_Read, ruleAccessModes.contains mode_Append, false,
      ruleAccessModes.contains mode_Control⟩

/-- Translation of the reducer inside `internal_combineAccessModes` (acl.ts). -/
def combinePair (accumulator current : Access) : Access :=
  let writeAccess := accumulator.write || current.write
  if writeAccess then
    ⟨accumulator.read || current.read, true, true, accumulator.control || current.control⟩
  else
    ⟨accumulator.read || current.read, accumulator.append || current.append, false,
      accumulator.control || current.control⟩

/-- Translation of `internal_combineAccessModes` (acl.ts). -/
def internal_combineAccessModes (modes : List Access) : Access :=
  modes.foldl combinePair ⟨false, false, false, false⟩

/-- Definition following the spec's words, for comparison with
`internal_combineAccessModes`: field-wise OR of the members. -/
def specFieldwiseOr (L : List Access) : Access :=
  ⟨L.any (·.read), L.any (·.append), L.any (·.write), L.any (·.control)⟩

/-- Definition following the spec's words: the write-implies-append
normalization. -/
def specNormalize (a : Access) : Access :=
  if a.write then { a with append := true } else a

/-- Definition following the spec's words: combination is field-wise OR
followed by the write-implies-append normalization. -/
def specCombine (L : List Access) : Access :=
  specNormalize (specFieldwiseOr L)

theorem combinePair_eq (a x : Access) :
    combinePair a x =
      ⟨a.read || x.read, (a.append || x.append) || (a.write || x.write),
        a.write || x.write, a.control || x.control⟩ := by
  cases a with
  | mk r1 a1 w1 c1 =>
    cases x with
    | mk r2 a2 w2 c2 =>
      cases w1 <;> cases w2 <;> simp [combinePair]

theorem Access.ext4 (a b : Access) (h1 : a.read = b.read) (h2 : a.append = b.append)
    (h3 : a.write = b.write) (h4 : a.control = b.control) : a = b := by
  cases a; cases b; simp_all

theorem foldl_combinePair (L : List Access) : ∀ acc : Access,
    (acc.write = true → acc.append = true) →
    L.foldl combinePair acc =
      ⟨acc.read || L.any (·.read),
        (acc.append || L.any (·.append)) || (acc.write || L.any (·.write)),
        acc.write || L.any (·.write),
        acc.control || L.any (·.control)⟩ := by
  induction L with
  | nil =>
    intro acc hacc
    refine Access.ext4 _ _ ?_ ?_ ?_ ?_ <;> simp
    cases hw : acc.write
    · simp
    · simp [hacc hw]
  | cons x L ih =>
    intro acc hacc
    rw [List.foldl_cons, ih (combinePair acc x) (by rw [combinePair_eq]; intro h; simp_all),
      combinePair_eq]
    refine Access.ext4 _ _ ?_ ?_ ?_ ?_ <;> simp only [List.any_cons] <;>
      cases acc.read <;> cases acc.append <;> cases acc.write <;> cases acc.control <;>
      cases x.read <;> cases x.append <;> cases x.write <;> cases x.control <;>
      simp [Bool.or_comm, Bool.or_assoc, Bool.or_left_comm]

/-- Characterization of `internal_combineAccessModes` as four existential
facts about the member list. -/
theorem internal_combineAccessModes_eq (L : List Access) :
    internal_combineAccessModes L =
      ⟨L.any (·.read), L.any (·.append) || L.any (·.write), L.any (·.write), L.any (·.control)⟩ := by
  rw [internal_combineAccessModes, foldl_combinePair L ⟨false, false, false, false⟩ (by simp)]
  simp

/-- C6: internal_combineAccessModes equals the field-wise OR of the members
followed by the write-implies-append normalization, is commutative and
associative up to that normalization, and yields all-false on the empty
list. -/
theorem C6_combineAccessModes_spec :
    internal_combineAccessModes [] = ⟨false, false, false, false⟩ ∧
    (∀ L : List Access, internal_combineAccessModes L = specCombine L) ∧
    (∀ L1 L2 : List Access,
      internal_combineAccessModes (L1 ++ L2) = internal_combineAccessModes (L2 ++ L1)) ∧
    (∀ L1 L2 : List Access,
      internal_combineAccessModes (L1 ++ L2) =
        internal_combineAccessModes [internal_combineAccessModes L1, internal_combineAccessModes L2]) := by
  refine ⟨rfl, ?_, ?_, ?_⟩
  · intro L
    rw [internal_combineAccessModes_eq, specCombine, specFieldwiseOr, specNormalize]
    cases hw : L.any (·.write) <;> simp
  · intro L1 L2
    simp only [internal_combineAccessModes_eq, List.any_append]
    simp [Bool.or_comm, Bool.or_assoc, Bool.or_left_comm]
  · intro L1 L2
    simp only [internal_combineAccessModes_eq, List.any_append, List.any_cons, List.any_nil]
    refine Access.ext4 _ _ ?_ ?_ ?_ ?_ <;> simp only <;>
      cases L1.any (·.read) <;> cases L1.any (·.append) <;> cases L1.any (·.write) <;>
      cases L1.any (·.control) <;> cases L2.any (·.read) <;> cases L2.any (·.append) <;>
      cases L2.any (·.write) <;> cases L2.any (·.control) <;> simp

/-- C5: internal_getAccess yields read/append-or-write/write/control from the
rule's stored modes, forcing append whenever Write is present, whether or not
Append is literally stored. -/
theorem C5_getAccess_spec (r : Thing) :
    (internal_getAccess r =
      if (getIriAll r acl_mode).contains mode_Write then
        ⟨(getIriAll r acl_mode).contains mode_Read, true, true,
          (getIriAll r acl_mode).contains mode_Control⟩
      else
        ⟨(getIriAll r acl_mode).contains mode_Read, (getIriAll r acl_mode).contains mode_Append,
          false, (getIriAll r acl_mode).contains mode_Control⟩) ∧
    ((internal_getAccess r).write = true → (internal_getAccess r).append = true) := by
  constructor
  · rfl
  · intro hw
    simp only [internal_getAccess] at hw ⊢
    by_cases h : (getIriAll r acl_mode).contains mode_Write = true
    · rw [if_pos h]
    · rw [if_neg h] at hw
      simp at hw

/-- Witness for C5: a concrete rule carrying only the Write mode gets
append access. -/
def c5Rule : Thing :=
  ⟨0, [⟨rdf_type, acl_Authorization⟩, ⟨acl_mode, mode_Write⟩]⟩

theorem C5_getAccess_spec_witness :
    (internal_getAccess c5Rule).append = true :=
  (C5_getAccess_spec c5Rule).2 (by decide)

/-- Scope of a rule mutation: resource-scoped or default-scoped
(the string union type of the TypeScript sources). -/
inductive RuleScope
  | resource
  | defaultScope
  deriving DecidableEq, Repr

/-- Translation of `internal_initialiseAclRule` (acl.ts): a fresh rule of
type Authorization carrying exactly the modes of `access` (with Append
dropped when Write is present). -/
def internal_initialiseAclRule (access : Access) (n : Nat) : Thing :=
  let r0 := setIri (createThing n) rdf_type acl_Authorization
  let r1 := if access.read then addIri r0 acl_mode mode_Read else r0
  let r2 := if access.append && !access.write then addIri r1 acl_mode mode_Append else r1
  let r3 := if access.write then addIri r2 acl_mode mode_Write else r2
  if access.control then addIri r3 acl_mode mode_Control else r3

/-- Translation of the `copyIris` helper inside `internal_duplicateAclRule`. -/
def copyIris (inputRule outputRule : Thing) (p : Iri) : Thing :=
  (getIriAll inputRule p).foldl (fun out target => addIri out p target) outputRule

/-- Translation of `internal_duplicateAclRule` (acl.ts): a fresh rule with
the same ACL statements as the source rule. -/
def internal_duplicateAclRule (sourceRule : Thing) (n : Nat) : Thing :=
  let t0 := setIri (createThing n) rdf_type acl_Authorization
  let t1 := copyIris sourceRule t0 acl_accessTo
  let t2 := copyIris sourceRule t1 acl_default
  let t3 := copyIris sourceRule t2 acl_defaultForNew
  let t4 := copyIris sourceRule t3 acl_agent
  let t5 := copyIris sourceRule t4 acl_agentGroup
  let t6 := copyIris sourceRule t5 acl_agentClass
  let t7 := copyIris sourceRule t6 acl_origin
  copyIris sourceRule t7 acl_mode

/-- Translation of `removePublicFromRule` (class.ts): split a rule into the
rule without the public, and a fresh rule keeping the public's grants for
other targets. -/
def removePublicFromRule (rule : Thing) (resourceIri : Iri) (ruleType : RuleScope) (fresh : Nat) :
    Thing × Thing :=
  if !((getIriAll rule acl_agentClass).contains foaf_Agent) then
    (rule, internal_initialiseAclRule ⟨false, false, false, false⟩ fresh)
  else
    let ruleWithoutPublic := removeIri rule acl_agentClass foaf_Agent
    let r1 := internal_duplicateAclRule rule fresh
    let r2 := setIri r1 acl_agentClass foaf_Agent
    let r3 := removeAll r2 acl_agent
    let r4 := removeAll r3 acl_agentGroup
    let r5 := removeIri r4
      (match ruleType with
        | RuleScope.resource => acl_accessTo
        | RuleScope.defaultScope => acl_default)
      resourceIri
    (ruleWithoutPublic, r5)

/-- Translation of `isAclQuad` (acl.ts). -/
def isAclQuad (q : Quad) : Bool :=
  (q.predicate == rdf_type && q.object == acl_Authorization) ||
    (q.predicate == acl_accessTo || q.predicate == acl_default ||
      q.predicate == acl_defaultForNew) ||
    (q.predicate == acl_mode &&
      (q.object == mode_Read || q.object == mode_Append || q.object == mode_Write ||
        q.object == mode_Control)) ||
    (q.predicate == acl_agent || q.predicate == acl_agentGroup ||
      q.predicate == acl_agentClass) ||
    q.predicate == acl_origin

/-- Translation of `isEmptyAclRule` (acl.ts). -/
def isEmptyAclRule (aclRule : Thing) : Bool :=
  if aclRule.quads.any (fun q => !(isAclQuad q)) then false
  else if (getIri aclRule acl_accessTo).isNone && (getIri aclRule acl_default).isNone &&
      (getIri aclRule acl_defaultForNew).isNone then true
  else if (getIri aclRule acl_mode).isNone then true
  else if (getIri aclRule acl_agent).isNone && (getIri aclRule acl_agentGroup).isNone &&
      (getIri aclRule acl_agentClass).isNone then true
  else false

/-- Translation of `internal_removeEmptyAclRules` (acl.ts). -/
def internal_removeEmptyAclRules (aclDataset : AclDataset) : AclDataset :=
  let aclRules := internal_getAclRules aclDataset
  let aclRulesToRemove := aclRules.filter isEmptyAclRule
  { aclDataset with things := aclRulesToRemove.foldl removeThing aclDataset.things }

/-- Largest subject identifier occurring in a dataset. -/
def maxSubject (things : List Thing) : Nat :=
  things.foldl (fun m t => max m t.subject) 0

/-- First identifier safe to use for a freshly created local subject. -/
def freshBase (things : List Thing) : Nat :=
  maxSubject things + 1

/-- Loop body of `setPublicResourceAccess`: split one pre-existing rule and
store both halves, consuming one fresh subject identifier. -/
def setPublicStep (accessTo : Iri) (st : List Thing × Nat) (aclRule : Thing) :
    List Thing × Nat :=
  let fr := removePublicFromRule aclRule accessTo RuleScope.resource st.2
  (setThing (setThing st.1 fr.1) fr.2, st.2 + 1)

/-- Translation of `setPublicResourceAccess` (class.ts): strip the public's
grants to the dataset's resource from every rule, add one fresh rule granting
`access` to the public for that resource, then garbage-collect empty rules. -/
def setPublicResourceAccess (aclDataset : AclDataset) (access : Access) : AclDataset :=
  let st := (getThingAll aclDataset).foldl (setPublicStep aclDataset.internal_accessTo)
    (aclDataset.things, freshBase aclDataset.things)
  let newRule0 := internal_initialiseAclRule access st.2
  let newRule1 := setIri newRule0 acl_accessTo aclDataset.internal_accessTo
  let newRule2 := setIri newRule1 acl_agentClass foaf_Agent
  internal_removeEmptyAclRules { aclDataset with things := setThing st.1 newRule2 }

/-- Translation of `getPublicResourceAccess` (class.ts). -/
def getPublicResourceAccess (aclDataset : AclDataset) : Access :=
  internal_combineAccessModes
    ((getClassAclRulesForClass
        (internal_getResourceAclRulesForResource (internal_getAclRules aclDataset)
          aclDataset.internal_accessTo)
        foaf_Agent).map internal_getAccess)

/-- Translation of `getPublicDefaultAccess` (class.ts). -/
def getPublicDefaultAccess (aclDataset : AclDataset) : Access :=
  internal_combineAccessModes
    ((getClassAclRulesForClass
        (internal_getDefaultAclRulesForResource (internal_getAclRules aclDataset)
          aclDataset.internal_accessTo)
        foaf_Agent).map internal_getAccess)

/-- Translation of `getGroupResourceAccess` (group.ts). -/
def getGroupResourceAccess (aclDataset : AclDataset) (group : Iri) : Access :=
  internal_combineAccessModes
    ((internal_getAclRulesForIri
        (internal_getResourceAclRulesForResource (internal_getAclRules aclDataset)
          aclDataset.internal_accessTo)
        group acl_agentGroup).map internal_getAccess)

/-- Translation of `getGroupDefaultAccess` (group.ts). -/
def getGroupDefaultAccess (aclDataset : AclDataset) (group : Iri) : Access :=
  internal_combineAccessModes
    ((internal_getAclRulesForIri
        (internal_getDefaultAclRulesForResource (internal_getAclRules aclDataset)
          aclDataset.internal_accessTo)
        group acl_agentGroup).map internal_getAccess)

/-- Effective resource-scoped access of the grantee identified by predicate
`targetType` (acl:agent, acl:agentGroup or acl:agentClass), composed from the
source's rule filters exactly as `getGroupResourceAccess` does. -/
def granteeResourceAccessVia (aclDataset : AclDataset) (targetType grantee : Iri) : Access :=
  internal_combineAccessModes
    ((internal_getAclRulesForIri
        (internal_getResourceAclRulesForResource (internal_getAclRules aclDataset)
          aclDataset.internal_accessTo)
        grantee targetType).map internal_getAccess)

/-- Effective default-scoped access of the grantee identified by predicate
`targetType`, composed as `getGroupDefaultAccess` is. -/
def granteeDefaultAccessVia (aclDataset : AclDataset) (targetType grantee : Iri) : Access :=
  internal_combineAccessModes
    ((internal_getAclRulesForIri
        (internal_getDefaultAclRulesForResource (internal_getAclRules aclDataset)
          aclDataset.internal_accessTo)
        grantee targetType).map internal_getAccess)

/-- Resource metadata: its own source URL and the ACL URL advertised by the
server for it, when visible to the acting principal. -/
structure ResourceInfo where
  sourceIri : Iri
  aclUrl : Option Iri
  deriving DecidableEq, Repr

/-- A resource with its (nullable) already-resolved resource and fallback
ACLs attached, as in `WithAcl & WithResourceInfo`. -/
structure ResourceWithAcl where
  info : ResourceInfo
  resourceAcl : Option AclDataset
  fallbackAcl : Option AclDataset
  deriving DecidableEq, Repr

/-- Translation of `hasResourceAcl` (acl.ts): an ACL is attached, pertains to
this resource, and sits at the ACL URL the server advertised. -/
def hasResourceAcl (resource : ResourceWithAcl) : Bool :=
  match resource.resourceAcl with
  | none => false
  | some a =>
    resource.info.sourceIri == a.internal_accessTo &&
      resource.info.aclUrl == some a.sourceIri

/-- Translation of `hasFallbackAcl` (acl.ts). -/
def hasFallbackAcl (resource : ResourceWithAcl) : Bool :=
  resource.fallbackAcl.isSome

/-- Placeholder dataset used only to totalise `Option.getD`; every use is
guarded by a check that the option is populated. -/
def emptyAclDataset : AclDataset :=
  ⟨[], "", ""⟩

/-- Translation of `getResourceAcl` (acl.ts). -/
def getResourceAcl (resource : ResourceWithAcl) : Option AclDataset :=
  if hasResourceAcl resource then resource.resourceAcl else none

/-- Translation of `getFallbackAcl` (acl.ts). -/
def getFallbackAcl (resource : ResourceWithAcl) : Option AclDataset :=
  if hasFallbackAcl resource then resource.fallbackAcl else none

/-- Translation of `getPublicAccess` (class.ts). -/
def getPublicAccess (resourceInfo : ResourceWithAcl) : Option Access :=
  if hasResourceAcl resourceInfo then
    some (getPublicResourceAccess (resourceInfo.resourceAcl.getD emptyAclDataset))
  else if hasFallbackAcl resourceInfo then
    some (getPublicDefaultAccess (resourceInfo.fallbackAcl.getD emptyAclDataset))
  else none

/-- Translation of `getGroupAccess` (group.ts). -/
def getGroupAccess (resourceInfo : ResourceWithAcl) (group : Iri) : Option Access :=
  if hasResourceAcl resourceInfo then
    some (getGroupResourceAccess (resourceInfo.resourceAcl.getD emptyAclDataset) group)
  else if hasFallbackAcl resourceInfo then
    some (getGroupDefaultAccess (resourceInfo.fallbackAcl.getD emptyAclDataset) group)
  else none

/-- Translation of `createAcl` (acl.ts): an empty ACL bound to the target
resource, stored at the resource's advertised ACL URL. -/
def createAcl (targetResource : ResourceInfo) : AclDataset :=
  ⟨[], targetResource.sourceIri, targetResource.aclUrl.getD ""⟩

/-- Translation of `createAclFromFallbackAcl` (acl.ts). -/
def createAclFromFallbackAcl (resource : ResourceWithAcl) : AclDataset :=
  let emptyResourceAcl := createAcl resource.info
  let fallbackAcl := resource.fallbackAcl.getD emptyAclDataset
  let fallbackAclRules := internal_getAclRules fallbackAcl
  let defaultAclRules :=
    internal_getDefaultAclRulesForResource fallbackAclRules fallbackAcl.internal_accessTo
  let resourceAclRules := defaultAclRules.map (fun rule =>
    setIri (removeAll (removeAll rule acl_default) acl_defaultForNew) acl_accessTo
      resource.info.sourceIri)
  { emptyResourceAcl with things := resourceAclRules.foldl setThing emptyResourceAcl.things }

/-- Failure taxonomy of the external fetch collaborator (spec §6/§7). -/
inductive FetchError
  | notFound
  | forbidden
  | serverError
  | networkFailure
  deriving DecidableEq, Repr

/-- Modelled from the spec: the external fetch collaborator.
`getSolidDataset` fetches the statements stored at a URL and fails with
`NotFound` or another `FetchError`; `getResourceInfoAclUrl` fetches resource
metadata and yields the advertised ACL URL, absent when the acting principal
cannot see it (both `resource/solidDataset.ts` and `resource/resource.ts` are
absent from the provided sources). -/
structure FetchEnv where
  getSolidDataset : Iri → Except FetchError (List Thing)
  getResourceInfoAclUrl : Iri → Except FetchError (Option Iri)

/-- Translation of `internal_fetchResourceAcl` (acl.ts): no accessible ACL
URL yields null, and any failure of the ACL fetch is caught and also yields
null. -/
def internal_fetchResourceAcl (env : FetchEnv) (info : ResourceInfo) : Option AclDataset :=
  match info.aclUrl with
  | none => none
  | some aclUrl =>
    match env.getSolidDataset aclUrl with
    | Except.ok things => some ⟨things, info.sourceIri, aclUrl⟩
    | Except.error _ => none

/-- Resource paths, modelled as character lists (JavaScript string indexing
is per code unit; ACL paths are ASCII). -/
abbrev ResPath := List Char

/-- Translation of the trailing-slash strip inside `internal_getContainerPath`. -/
def stripTrailingSlash (p : ResPath) : ResPath :=
  if p.drop (p.length - 1) = ['/'] then p.dropLast else p

/-- Index of the last slash of a path, `none` when there is no slash
(JavaScript `lastIndexOf` yields -1 then). -/
def lastSlashPos : ResPath → Option Nat
  | [] => none
  | c :: cs =>
    match lastSlashPos cs with
    | some i => some (i + 1)
    | none => if c = '/' then some 0 else none

/-- Translation of `internal_getContainerPath` (acl.ts): strip one trailing
slash, cut at the last remaining slash, re-append a slash (the cut is taken
from the original string, whose relevant span agrees with the stripped one). -/
def internal_getContainerPath (resourcePath : ResPath) : ResPath :=
  let stripped := stripTrailingSlash resourcePath
  resourcePath.take ((lastSlashPos stripped).getD 0) ++ ['/']

/-- Definition following the spec's words, for comparison with
`internal_getContainerPath`: remove a trailing slash if present, then remove
everything after and including the last remaining slash, re-appending a
trailing slash. -/
def specContainerOf (resourcePath : ResPath) : ResPath :=
  let stripped := stripTrailingSlash resourcePath
  stripped.take ((lastSlashPos stripped).getD 0) ++ ['/']

/-- URL split into origin and path, as `new URL` exposes it. -/
structure UrlModel where
  origin : String
  pathname : ResPath
  deriving DecidableEq, Repr

/-- Reassembled absolute URL (`new URL(containerPath, resourceUrl.origin).href`). -/
def urlHref (u : UrlModel) : Iri :=
  u.origin ++ String.mk u.pathname

/-- Translation of `internal_fetchFallbackAcl` (acl.ts), instrumented with
the list of container URLs whose metadata the walk fetches. Fuel bounds the
structural recursion; the walk consumes one fuel per ancestor step. A
metadata fetch failure propagates (no catch in the source), while a failed
candidate-ACL fetch surfaces as `none` from `internal_fetchResourceAcl` and
the walk continues upward. -/
def internal_fetchFallbackAcl (env : FetchEnv) :
    Nat → UrlModel → Except FetchError (Option AclDataset) × List Iri
  | fuel, u =>
    if u.pathname = ['/'] then (Except.ok none, [])
    else
      match fuel with
      | 0 => (Except.ok none, [])
      | fuel' + 1 =>
        let containerPath := internal_getContainerPath u.pathname
        let containerIri := urlHref ⟨u.origin, containerPath⟩
        match env.getResourceInfoAclUrl containerIri with
        | Except.error e => (Except.error e, [containerIri])
        | Except.ok none => (Except.ok none, [containerIri])
        | Except.ok (some aclUrl) =>
          match internal_fetchResourceAcl env ⟨containerIri, some aclUrl⟩ with
          | some containerAcl => (Except.ok (some containerAcl), [containerIri])
          | none =>
            let rest := internal_fetchFallbackAcl env fuel' ⟨u.origin, containerPath⟩
            (rest.1, containerIri :: rest.2)


theorem mem_getIriAll {t : Thing} {p o : Iri} :
    o ∈ getIriAll t p ↔ (⟨p, o⟩ : Quad) ∈ t.quads := by
  simp only [getIriAll, List.mem_map, List.mem_filter, beq_iff_eq]
  constructor
  · rintro ⟨q, ⟨hq, hp⟩, ho⟩
    cases q
    subst hp
    subst ho
    exact hq
  · intro h
    exact ⟨⟨p, o⟩, ⟨h, rfl⟩, rfl⟩

theorem contains_getIriAll {t : Thing} {p o : Iri} :
    (getIriAll t p).contains o = true ↔ (⟨p, o⟩ : Quad) ∈ t.quads := by
  simp [mem_getIriAll]

theorem getIri_eq_none {t : Thing} {p : Iri} :
    getIri t p = none ↔ ∀ o, (⟨p, o⟩ : Quad) ∉ t.quads := by
  rw [getIri, List.head?_eq_none_iff, List.eq_nil_iff_forall_not_mem]
  constructor
  · intro h o ho
    exact h o (mem_getIriAll.mpr ho)
  · intro h o ho
    exact h o (mem_getIriAll.mp ho)

theorem subject_addIri (t : Thing) (p o : Iri) : (addIri t p o).subject = t.subject := rfl

theorem subject_removeAll (t : Thing) (p : Iri) : (removeAll t p).subject = t.subject := rfl

theorem subject_removeIri (t : Thing) (p o : Iri) : (removeIri t p o).subject = t.subject := rfl

theorem subject_setIri (t : Thing) (p o : Iri) : (setIri t p o).subject = t.subject := rfl

theorem mem_addIri {t : Thing} {p o : Iri} {q : Quad} :
    q ∈ (addIri t p o).quads ↔ q ∈ t.quads ∨ q = ⟨p, o⟩ := by
  simp [addIri]

theorem mem_removeAll {t : Thing} {p : Iri} {q : Quad} :
    q ∈ (removeAll t p).quads ↔ q ∈ t.quads ∧ q.predicate ≠ p := by
  simp [removeAll, List.mem_filter]

theorem mem_removeIri {t : Thing} {p o : Iri} {q : Quad} :
    q ∈ (removeIri t p o).quads ↔ q ∈ t.quads ∧ ¬(q.predicate = p ∧ q.object = o) := by
  simp only [removeIri, List.mem_filter, Bool.not_eq_eq_eq_not, Bool.not_true, Bool.and_eq_false_imp,
    beq_iff_eq, beq_eq_false_iff_ne, ne_eq, not_and]

theorem mem_setIri {t : Thing} {p o : Iri} {q : Quad} :
    q ∈ (setIri t p o).quads ↔ (q ∈ t.quads ∧ q.predicate ≠ p) ∨ q = ⟨p, o⟩ := by
  simp only [setIri, mem_addIri, mem_removeAll]

theorem mem_setThing {d : List Thing} {t x : Thing} :
    x ∈ setThing d t ↔ (x ∈ d ∧ x.subject ≠ t.subject) ∨ x = t := by
  simp [setThing, List.mem_filter, List.mem_append]

theorem mem_removeThing {d : List Thing} {t x : Thing} :
    x ∈ removeThing d t ↔ x ∈ d ∧ x.subject ≠ t.subject := by
  simp [removeThing, List.mem_filter]

/-- C10: hasResourceAcl demands that the attached ACL pertain to the
resource (accessTo equals the resource's source URL, and the ACL's own
source URL equals the advertised ACL URL); when either check fails,
getResourceAcl yields null despite the attached dataset. -/
theorem C10_hasResourceAcl_pertinence :
    (∀ (r : ResourceWithAcl) (a : AclDataset), r.resourceAcl = some a →
      hasResourceAcl r = true →
      r.info.sourceIri = a.internal_accessTo ∧ r.info.aclUrl = some a.sourceIri) ∧
    (∀ (r : ResourceWithAcl) (a : AclDataset), r.resourceAcl = some a →
      (r.info.sourceIri ≠ a.internal_accessTo ∨ r.info.aclUrl ≠ some a.sourceIri) →
      getResourceAcl r = none) := by
  constructor
  · intro r a ha h
    rw [hasResourceAcl, ha] at h
    simpa using h
  · intro r a ha h
    have hfalse : hasResourceAcl r = false := by
      rw [hasResourceAcl, ha]
      rcases h with h | h <;> simp [h]
    simp [getResourceAcl, hfalse]

/-- Witness for C10: a resource whose attached ACL names a different
resource is treated as having no resource ACL. -/
def c10Acl : AclDataset :=
  ⟨[], "https://pod/other", "https://pod/resource.acl"⟩

def c10Resource : ResourceWithAcl :=
  ⟨⟨"https://pod/resource", some "https://pod/resource.acl"⟩, some c10Acl, none⟩

theorem C10_hasResourceAcl_pertinence_witness :
    getResourceAcl c10Resource = none :=
  C10_hasResourceAcl_pertinence.2 c10Resource c10Acl rfl (Or.inl (by decide))

/-- C4: a resource's own ACL governs (the fallback ACL is fully ignored,
whatever it is); the fallback ACL's default rules are consulted only when no
resource ACL is present; with neither, the result is null. -/
theorem C4_acl_precedence :
    (∀ (r : ResourceWithAcl) (a : AclDataset), r.resourceAcl = some a →
      hasResourceAcl r = true →
      getPublicAccess r = some (getPublicResourceAccess a) ∧
      (∀ group : Iri, getGroupAccess r group = some (getGroupResourceAccess a group)) ∧
      (∀ fb : Option AclDataset,
        getPublicAccess ⟨r.info, r.resourceAcl, fb⟩ = getPublicAccess r ∧
        ∀ group : Iri, getGroupAccess ⟨r.info, r.resourceAcl, fb⟩ group = getGroupAccess r group)) ∧
    (∀ (r : ResourceWithAcl) (fb : AclDataset), hasResourceAcl r = false →
      r.fallbackAcl = some fb →
      getPublicAccess r = some (getPublicDefaultAccess fb) ∧
      ∀ group : Iri, getGroupAccess r group = some (getGroupDefaultAccess fb group)) ∧
    (∀ r : ResourceWithAcl, hasResourceAcl r = false → r.fallbackAcl = none →
      getPublicAccess r = none ∧ ∀ group : Iri, getGroupAccess r group = none) := by
  refine ⟨?_, ?_, ?_⟩
  · intro r a ha h
    have hacl : hasResourceAcl ⟨r.info, r.resourceAcl, none⟩ = true := by
      rw [hasResourceAcl] at h ⊢
      exact h
    refine ⟨by simp [getPublicAccess, h, ha], fun group => by simp [getGroupAccess, h, ha], ?_⟩
    intro fb
    have hfb : hasResourceAcl ⟨r.info, r.resourceAcl, fb⟩ = true := by
      rw [hasResourceAcl] at h ⊢
      exact h
    exact ⟨by simp [getPublicAccess, h, hfb], fun group => by simp [getGroupAccess, h, hfb]⟩
  · intro r fb h hfb
    constructor
    · simp [getPublicAccess, h, hasFallbackAcl, hfb]
    · intro group
      simp [getGroupAccess, h, hasFallbackAcl, hfb]
  · intro r h hfb
    constructor
    · simp [getPublicAccess, h, hasFallbackAcl, hfb]
    · intro group
      simp [getGroupAccess, h, hasFallbackAcl, hfb]

/-- Witness for C4: a resource with both an own ACL granting the public
nothing and a fallback ACL granting the public default read access resolves
public access from the own ACL alone. -/
def c4OwnAcl : AclDataset :=
  ⟨[], "https://pod/resource", "https://pod/resource.acl"⟩

def c4FallbackAcl : AclDataset :=
  ⟨[⟨7, [⟨rdf_type, acl_Authorization⟩, ⟨acl_default, "https://pod/"⟩,
      ⟨acl_agentClass, foaf_Agent⟩, ⟨acl_mode, mode_Read⟩]⟩],
    "https://pod/", "https://pod/.acl"⟩

def c4Resource : ResourceWithAcl :=
  ⟨⟨"https://pod/resource", some "https://pod/resource.acl"⟩, some c4OwnAcl,
    some c4FallbackAcl⟩

theorem C4_acl_precedence_witness :
    getPublicAccess c4Resource = some (getPublicResourceAccess c4OwnAcl) :=
  (C4_acl_precedence.1 c4Resource c4OwnAcl rfl (by decide)).1

theorem lastSlashPos_lt_length : ∀ (l : ResPath) (i : Nat), lastSlashPos l = some i → i < l.length := by
  intro l
  induction l with
  | nil => intro i h; simp [lastSlashPos] at h
  | cons c cs ih =>
    intro i h
    rw [lastSlashPos] at h
    rcases hcs : lastSlashPos cs with _ | j
    · rw [hcs] at h
      by_cases hc : c = '/'
      · rw [if_pos hc] at h
        cases h
        simp
      · rw [if_neg hc] at h
        cases h
    · rw [hcs] at h
      cases h
      have := ih j hcs
      simp only [List.length_cons]
      omega

theorem getContainerPath_eq_spec (p : ResPath)
    (h : (lastSlashPos (stripTrailingSlash p)).isSome) :
    internal_getContainerPath p = specContainerOf p := by
  simp only [internal_getContainerPath, specContainerOf]
  rcases hls : lastSlashPos (stripTrailingSlash p) with _ | i
  · simp [hls] at h
  · have hi : i < (stripTrailingSlash p).length := lastSlashPos_lt_length _ _ hls
    simp only [Option.getD_some]
    congr 1
    by_cases hts : p.drop (p.length - 1) = ['/']
    · rw [stripTrailingSlash, if_pos hts] at hi ⊢
      rw [List.dropLast_eq_take, List.take_take]
      rw [List.length_dropLast] at hi
      rw [Nat.min_eq_left (Nat.le_of_lt hi)]
    · rw [stripTrailingSlash, if_neg hts]

/-- C9: the container path is obtained by stripping a trailing slash, cutting
at the last remaining slash and re-appending a slash; the fallback walk stops
with a null result and no container fetch exactly at the root path. -/
theorem C9_containerPath_spec :
    (∀ p : ResPath, (lastSlashPos (stripTrailingSlash p)).isSome →
      internal_getContainerPath p = specContainerOf p) ∧
    internal_getContainerPath "/a/b/".data = "/a/".data ∧
    internal_getContainerPath "/a/b/c".data = "/a/b/".data ∧
    (∀ (env : FetchEnv) (fuel : Nat) (origin : String),
      internal_fetchFallbackAcl env fuel ⟨origin, ['/']⟩ = (Except.ok none, [])) ∧
    (∀ (env : FetchEnv) (fuel : Nat) (origin : String) (q : ResPath), q ≠ ['/'] →
      (internal_fetchFallbackAcl env (fuel + 1) ⟨origin, q⟩).2.head? =
        some (urlHref ⟨origin, internal_getContainerPath q⟩)) := by
  refine ⟨getContainerPath_eq_spec, by decide, by decide, ?_, ?_⟩
  · intro env fuel origin
    rw [internal_fetchFallbackAcl.eq_def]
    simp
  · intro env fuel origin q hq
    rw [internal_fetchFallbackAcl.eq_def]
    simp only
    rw [if_neg (by simpa using hq)]
    rcases h : env.getResourceInfoAclUrl (urlHref ⟨origin, internal_getContainerPath q⟩) with e | aclu
    · simp [h]
    · rcases aclu with _ | aclu
      · simp [h]
      · rcases h2 : internal_fetchResourceAcl env
            ⟨urlHref ⟨origin, internal_getContainerPath q⟩, some aclu⟩ with _ | acl
        · simp [h, h2]
        · simp [h, h2]

/-- Witness for C9 at a concrete non-root path and a concrete environment. -/
def c9Env : FetchEnv :=
  ⟨fun _ => Except.error FetchError.notFound, fun _ => Except.ok none⟩

theorem C9_containerPath_spec_witness :
    internal_getContainerPath "/a/b/".data = specContainerOf "/a/b/".data ∧
    (internal_fetchFallbackAcl c9Env 1 ⟨"https://pod", "/a/b".data⟩).2.head? =
      some (urlHref ⟨"https://pod", internal_getContainerPath "/a/b".data⟩) :=
  ⟨C9_containerPath_spec.1 "/a/b/".data (by decide),
    C9_containerPath_spec.2.2.2.2 c9Env 0 "https://pod" "/a/b".data (by decide)⟩

/-- Concrete ACL statements served at the root ACL URL in the C3 scenario. -/
def c3Acl : List Thing :=
  [⟨0, [⟨rdf_type, acl_Authorization⟩, ⟨acl_default, "https://pod/"⟩,
    ⟨acl_agentClass, foaf_Agent⟩, ⟨acl_mode, mode_Read⟩]⟩]

/-- Concrete environment in which fetching the ACL document of container
`/a/` fails with Forbidden, while the root container's ACL exists. -/
def c3Env : FetchEnv :=
  ⟨fun u => if u = "https://pod/.acl" then Except.ok c3Acl else Except.error FetchError.forbidden,
    fun u =>
      if u = "https://pod/a/" then Except.ok (some "https://pod/a/.acl")
      else if u = "https://pod/" then Except.ok (some "https://pod/.acl")
      else Except.error FetchError.notFound⟩

/-- C3 counterexample: a candidate ACL document whose fetch fails with
Forbidden (not NotFound) is nevertheless treated as "no ACL here" — the
fetch returns null (its type has no error channel at all) and the fallback
walk continues to the next ancestor and succeeds, propagating nothing. -/
theorem C3_counterexample :
    c3Env.getSolidDataset "https://pod/a/.acl" = Except.error FetchError.forbidden ∧
    internal_fetchResourceAcl c3Env ⟨"https://pod/a/", some "https://pod/a/.acl"⟩ = none ∧
    (internal_fetchFallbackAcl c3Env 3 ⟨"https://pod", "/a/b".data⟩).1 =
      Except.ok (some ⟨c3Acl, "https://pod/", "https://pod/.acl"⟩) := by
  refine ⟨rfl, rfl, rfl⟩

/-- C3 amended: every failure fetching a candidate ACL document — NotFound or
otherwise — yields null and makes the walk continue one ancestor up, whereas
a failure fetching a container's resource metadata propagates to the caller. -/
theorem C3_amended_fetch_failures :
    (∀ (env : FetchEnv) (s aclu : Iri) (e : FetchError),
      env.getSolidDataset aclu = Except.error e →
      internal_fetchResourceAcl env ⟨s, some aclu⟩ = none) ∧
    (∀ (env : FetchEnv) (fuel : Nat) (origin : String) (q : ResPath) (e : FetchError),
      q ≠ ['/'] →
      env.getResourceInfoAclUrl (urlHref ⟨origin, internal_getContainerPath q⟩) =
        Except.error e →
      (internal_fetchFallbackAcl env (fuel + 1) ⟨origin, q⟩).1 = Except.error e) ∧
    (∀ (env : FetchEnv) (fuel : Nat) (origin : String) (q : ResPath) (aclu : Iri) (e : FetchError),
      q ≠ ['/'] →
      env.getResourceInfoAclUrl (urlHref ⟨origin, internal_getContainerPath q⟩) =
        Except.ok (some aclu) →
      env.getSolidDataset aclu = Except.error e →
      (internal_fetchFallbackAcl env (fuel + 1) ⟨origin, q⟩).1 =
        (internal_fetchFallbackAcl env fuel ⟨origin, internal_getContainerPath q⟩).1) := by
  refine ⟨?_, ?_, ?_⟩
  · intro env s aclu e h
    simp [internal_fetchResourceAcl, h]
  · intro env fuel origin q e hq h
    rw [internal_fetchFallbackAcl.eq_def]
    simp only
    rw [if_neg (by simpa using hq)]
    simp [h]
  · intro env fuel origin q aclu e hq h h2
    rw [internal_fetchFallbackAcl.eq_def]
    simp only
    rw [if_neg (by simpa using hq)]
    simp [h, internal_fetchResourceAcl, h2]

/-- Witness for the amended C3 statement at the concrete environment. -/
theorem C3_amended_fetch_failures_witness :
    internal_fetchResourceAcl c3Env ⟨"https://pod/a/", some "https://pod/a/.acl"⟩ = none ∧
    (internal_fetchFallbackAcl c3Env 1 ⟨"https://pod", "/a/b".data⟩).1 =
      (internal_fetchFallbackAcl c3Env 0
        ⟨"https://pod", internal_getContainerPath "/a/b".data⟩).1 :=
  ⟨C3_amended_fetch_failures.1 c3Env "https://pod/a/" "https://pod/a/.acl"
      FetchError.forbidden rfl,
    C3_amended_fetch_failures.2.2 c3Env 0 "https://pod" "/a/b".data "https://pod/a/.acl"
      FetchError.forbidden (by decide) rfl rfl⟩

/-- Well-formed dataset: distinct things carry distinct subjects (the store
groups statements by subject, so each subject yields one Thing). -/
def WFThings (d : List Thing) : Prop :=
  d.Pairwise (fun a b => a.subject ≠ b.subject)

theorem WFThings_subject_inj : ∀ {d : List Thing}, WFThings d →
    ∀ {x r : Thing}, x ∈ d → r ∈ d → x.subject = r.subject → x = r := by
  intro d
  induction d with
  | nil =>
    intro _ x r hx
    simp at hx
  | cons a l ih =>
    intro h x r hx hr hs
    rcases List.pairwise_cons.mp h with ⟨ha, hl⟩
    rcases List.mem_cons.mp hx with hx1 | hx2
    · rcases List.mem_cons.mp hr with hr1 | hr2
      · rw [hx1, hr1]
      · rw [hx1] at hs
        exact absurd hs (ha r hr2)
    · rcases List.mem_cons.mp hr with hr1 | hr2
      · rw [hr1] at hs
        exact absurd hs.symm (ha x hx2)
      · exact ih hl hx2 hr2 hs

theorem foldl_removeThing_eq (rs : List Thing) : ∀ d : List Thing,
    rs.foldl removeThing d =
      d.filter (fun x => rs.all (fun r => !(r.subject == x.subject))) := by
  induction rs with
  | nil =>
    intro d
    simp
  | cons r rs ih =>
    intro d
    rw [List.foldl_cons, ih, removeThing, List.filter_filter]
    apply List.filter_congr
    intro x _
    have hbeq : (x.subject == r.subject) = (r.subject == x.subject) := by
      rw [Bool.eq_iff_iff, beq_iff_eq, beq_iff_eq]
      exact eq_comm
    rw [List.all_cons, hbeq, Bool.and_comm]

/-- Characterization of the garbage collector on well-formed datasets: it
keeps exactly the things that are not empty Authorization rules. -/
theorem removeEmptyAclRules_things_eq (d : AclDataset) (hwf : WFThings d.things) :
    (internal_removeEmptyAclRules d).things =
      d.things.filter (fun t => !(isAclRule t && isEmptyAclRule t)) := by
  simp only [internal_removeEmptyAclRules]
  rw [foldl_removeThing_eq]
  apply List.filter_congr
  intro x hx
  by_cases hxe : isAclRule x = true ∧ isEmptyAclRule x = true
  · have hxm : x ∈ (internal_getAclRules d).filter isEmptyAclRule := by
      rw [internal_getAclRules, getThingAll]
      exact List.mem_filter.mpr ⟨List.mem_filter.mpr ⟨hx, hxe.1⟩, hxe.2⟩
    have hall : ((internal_getAclRules d).filter isEmptyAclRule).all
        (fun r => !(r.subject == x.subject)) = false := by
      cases hcase : ((internal_getAclRules d).filter isEmptyAclRule).all
          (fun r => !(r.subject == x.subject))
      · rfl
      · have := List.all_eq_true.mp hcase x hxm
        simp at this
    rw [hall, hxe.1, hxe.2]
    rfl
  · have hne : (isAclRule x && isEmptyAclRule x) = false := by
      cases h1 : isAclRule x <;> cases h2 : isEmptyAclRule x <;> simp_all
    rw [hne]
    simp only [Bool.not_false]
    apply List.all_eq_true.mpr
    intro r hr
    rcases List.mem_filter.mp hr with ⟨hr1, hre⟩
    rw [internal_getAclRules, getThingAll] at hr1
    rcases List.mem_filter.mp hr1 with ⟨hrd, hra⟩
    have hsne : r.subject ≠ x.subject := by
      intro heq
      have hxr : x = r := WFThings_subject_inj hwf hx hrd heq.symm
      exact hxe ⟨hxr ▸ hra, hxr ▸ hre⟩
    simpa using hsne

/-- C8: the garbage collector removes exactly the ineffective Authorization
rules: rules with a non-ACL statement are never removed; otherwise a rule is
removed precisely when it has no target, no access mode, or no grantee
(agent, agentGroup or agentClass) — so an origin-only rule is removed — and
everything else, including the dataset's bound resource, is unchanged. -/
theorem C8_removeEmptyAclRules_spec (d : AclDataset) (hwf : WFThings d.things) :
    ((internal_removeEmptyAclRules d).things =
      d.things.filter (fun t => !(isAclRule t && isEmptyAclRule t))) ∧
    (internal_removeEmptyAclRules d).internal_accessTo = d.internal_accessTo ∧
    (∀ t : Thing, t.quads.any (fun q => !(isAclQuad q)) = true → isEmptyAclRule t = false) ∧
    (∀ t : Thing, t.quads.all isAclQuad = true →
      (isEmptyAclRule t = true ↔
        ((getIri t acl_accessTo = none ∧ getIri t acl_default = none ∧
            getIri t acl_defaultForNew = none) ∨
          getIri t acl_mode = none ∨
          (getIri t acl_agent = none ∧ getIri t acl_agentGroup = none ∧
            getIri t acl_agentClass = none)))) := by
  refine ⟨removeEmptyAclRules_things_eq d hwf, rfl, ?_, ?_⟩
  · intro t h
    rw [isEmptyAclRule, if_pos h]
  · intro t h
    have hno : t.quads.any (fun q => !(isAclQuad q)) = false := by
      cases hcase : t.quads.any (fun q => !(isAclQuad q))
      · rfl
      · rcases List.any_eq_true.mp hcase with ⟨q, hq, hq2⟩
        have := List.all_eq_true.mp h q hq
        simp [this] at hq2
    rw [isEmptyAclRule, if_neg (by simp [hno])]
    by_cases h1 : (getIri t acl_accessTo).isNone && (getIri t acl_default).isNone &&
        (getIri t acl_defaultForNew).isNone
    · rw [if_pos h1]
      simp only [Bool.and_eq_true, Option.isNone_iff_eq_none] at h1
      simp [h1]
    · rw [if_neg h1]
      by_cases h2 : (getIri t acl_mode).isNone
      · rw [if_pos h2]
        simp only [Option.isNone_iff_eq_none] at h2
        simp [h2]
      · rw [if_neg h2]
        by_cases h3 : (getIri t acl_agent).isNone && (getIri t acl_agentGroup).isNone &&
            (getIri t acl_agentClass).isNone
        · rw [if_pos h3]
          simp only [Bool.and_eq_true, Option.isNone_iff_eq_none] at h3
          simp [h3]
        · rw [if_neg h3]
          simp only [Bool.and_eq_true, Option.isNone_iff_eq_none] at h1 h3
          simp only [Option.isNone_iff_eq_none] at h2
          constructor
          · intro hfalse
            simp at hfalse
          · intro hdisj
            exfalso
            tauto

/-- Witness data for C8: an origin-only rule (dropped), an ordinary rule
(kept), a non-Authorization thing (kept), and a granteeless rule carrying a
non-ACL statement (kept). -/
def c8Rule1 : Thing :=
  ⟨1, [⟨rdf_type, acl_Authorization⟩, ⟨acl_accessTo, "https://pod/x"⟩,
    ⟨acl_mode, mode_Read⟩, ⟨acl_origin, "https://app.example"⟩]⟩

def c8Rule2 : Thing :=
  ⟨2, [⟨rdf_type, acl_Authorization⟩, ⟨acl_accessTo, "https://pod/x"⟩,
    ⟨acl_mode, mode_Read⟩, ⟨acl_agent, "https://pod/profile#me"⟩]⟩

def c8Thing3 : Thing :=
  ⟨3, [⟨acl_accessTo, "https://pod/x"⟩]⟩

def c8Rule4 : Thing :=
  ⟨4, [⟨rdf_type, acl_Authorization⟩, ⟨acl_accessTo, "https://pod/x"⟩,
    ⟨acl_mode, mode_Read⟩, ⟨"https://ex/comment", "kept for other purposes"⟩]⟩

def c8Data : AclDataset :=
  ⟨[c8Rule1, c8Rule2, c8Thing3, c8Rule4], "https://pod/x", "https://pod/x.acl"⟩

theorem C8_removeEmptyAclRules_spec_witness :
    (internal_removeEmptyAclRules c8Data).things = [c8Rule2, c8Thing3, c8Rule4] := by
  have h := (C8_removeEmptyAclRules_spec c8Data
    (by simp [WFThings, c8Data, c8Rule1, c8Rule2, c8Thing3, c8Rule4])).1
  rw [h]
  decide

/-- Mode-membership test of a rule, as stored. -/
def hasModeB (m : Iri) (t : Thing) : Bool :=
  (getIriAll t acl_mode).contains m

theorem internal_getAccess_fields (t : Thing) :
    internal_getAccess t =
      ⟨hasModeB mode_Read t, hasModeB mode_Append t || hasModeB mode_Write t,
        hasModeB mode_Write t, hasModeB mode_Control t⟩ := by
  simp only [internal_getAccess, hasModeB]
  cases hw : (getIriAll t acl_mode).contains mode_Write <;> simp [hw]

theorem list_any_or {α : Type} (l : List α) (f g : α → Bool) :
    l.any (fun a => f a || g a) = (l.any f || l.any g) := by
  induction l with
  | nil => simp
  | cons x l ih =>
    simp only [List.any_cons, ih]
    cases f x <;> cases g x <;> cases l.any f <;> cases l.any g <;> simp

theorem any_filter {α : Type} (l : List α) (p q : α → Bool) :
    (l.filter p).any q = l.any (fun a => p a && q a) := by
  induction l with
  | nil => simp
  | cons x l ih =>
    by_cases hx : p x = true
    · simp [List.filter_cons, hx, ih]
    · simp only [Bool.not_eq_true] at hx
      simp [List.filter_cons, hx, ih]

theorem list_any_map {α β : Type} (l : List α) (f : α → β) (p : β → Bool) :
    (l.map f).any p = l.any (fun a => p (f a)) := by
  induction l with
  | nil => rfl
  | cons x l ih => simp only [List.map_cons, List.any_cons, ih]

theorem any_congr_mem {α : Type} {l : List α} {f g : α → Bool}
    (h : ∀ a ∈ l, f a = g a) : l.any f = l.any g := by
  induction l with
  | nil => rfl
  | cons x l ih =>
    simp only [List.any_cons]
    rw [h x (List.mem_cons_self x l), ih (fun a ha => h a (List.mem_cons_of_mem x ha))]

/-- Combined access of a list of rules, field by field: each capability is
granted exactly when some rule in the list stores the corresponding mode
(append also following from a stored Write). -/
theorem combineMap_getAccess (R : List Thing) :
    internal_combineAccessModes (R.map internal_getAccess) =
      ⟨R.any (hasModeB mode_Read), R.any (hasModeB mode_Append) || R.any (hasModeB mode_Write),
        R.any (hasModeB mode_Write), R.any (hasModeB mode_Control)⟩ := by
  have hR : (R.map internal_getAccess).any (fun a => a.read) = R.any (hasModeB mode_Read) := by
    rw [list_any_map]
    exact any_congr_mem (fun t _ => by simp [internal_getAccess_fields])
  have hW : (R.map internal_getAccess).any (fun a => a.write) = R.any (hasModeB mode_Write) := by
    rw [list_any_map]
    exact any_congr_mem (fun t _ => by simp [internal_getAccess_fields])
  have hC : (R.map internal_getAccess).any (fun a => a.control) =
      R.any (hasModeB mode_Control) := by
    rw [list_any_map]
    exact any_congr_mem (fun t _ => by simp [internal_getAccess_fields])
  have hA : (R.map internal_getAccess).any (fun a => a.append) =
      (R.any (hasModeB mode_Append) || R.any (hasModeB mode_Write)) := by
    rw [list_any_map, ← list_any_or]
    exact any_congr_mem (fun t _ => by simp [internal_getAccess_fields])
  rw [internal_combineAccessModes_eq]
  refine Access.ext4 _ _ ?_ ?_ ?_ ?_ <;> simp only
  · exact hR
  · rw [hA, hW]
    cases R.any (hasModeB mode_Append) <;> cases R.any (hasModeB mode_Write) <;> simp
  · exact hW
  · exact hC

/-- Resource-scoped counterpart of one capability test: some rule of the
dataset is an Authorization, applies to the dataset's resource, names the
grantee through `p`, and stores mode `m`. -/
def anyRuleR (d : AclDataset) (p g m : Iri) : Bool :=
  d.things.any (fun t =>
    isAclRule t && (appliesToResource t d.internal_accessTo &&
      ((getIriAll t p).contains g && hasModeB m t)))

/-- Default-scoped counterpart of `anyRuleR`. -/
def anyRuleD (d : AclDataset) (p g m : Iri) : Bool :=
  d.things.any (fun t =>
    isAclRule t && (isDefaultForResource t d.internal_accessTo &&
      ((getIriAll t p).contains g && hasModeB m t)))

theorem granteeResourceAccessVia_eq (d : AclDataset) (p g : Iri) :
    granteeResourceAccessVia d p g =
      ⟨anyRuleR d p g mode_Read, anyRuleR d p g mode_Append || anyRuleR d p g mode_Write,
        anyRuleR d p g mode_Write, anyRuleR d p g mode_Control⟩ := by
  rw [granteeResourceAccessVia, combineMap_getAccess]
  simp only [internal_getAclRulesForIri, internal_getResourceAclRulesForResource,
    internal_getAclRules, getThingAll, any_filter, anyRuleR, Bool.and_assoc]

theorem granteeDefaultAccessVia_eq (d : AclDataset) (p g : Iri) :
    granteeDefaultAccessVia d p g =
      ⟨anyRuleD d p g mode_Read, anyRuleD d p g mode_Append || anyRuleD d p g mode_Write,
        anyRuleD d p g mode_Write, anyRuleD d p g mode_Control⟩ := by
  rw [granteeDefaultAccessVia, combineMap_getAccess]
  simp only [internal_getAclRulesForIri, internal_getDefaultAclRulesForResource,
    internal_getAclRules, getThingAll, any_filter, anyRuleD, Bool.and_assoc]

theorem contains_c7transform (r : Thing) (X p o : Iri) (h1 : p ≠ acl_default)
    (h2 : p ≠ acl_defaultForNew) (h3 : p ≠ acl_accessTo) :
    ((getIriAll (setIri (removeAll (removeAll r acl_default) acl_defaultForNew) acl_accessTo X)
        p).contains o) =
      ((getIriAll r p).contains o) := by
  rw [Bool.eq_iff_iff, contains_getIriAll, contains_getIriAll]
  simp only [mem_setIri, mem_removeAll, Quad.mk.injEq]
  constructor
  · rintro (⟨⟨⟨hm, _⟩, _⟩, _⟩ | ⟨hp, _⟩)
    · exact hm
    · exact absurd hp h3
  · intro hm
    exact Or.inl ⟨⟨⟨hm, h1⟩, h2⟩, h3⟩

theorem appliesToResource_c7transform (r : Thing) (X : Iri) :
    appliesToResource
      (setIri (removeAll (removeAll r acl_default) acl_defaultForNew) acl_accessTo X) X = true := by
  rw [appliesToResource]
  exact contains_getIriAll.mpr (mem_setIri.mpr (Or.inr rfl))

theorem filter_ne_subject_eq_self {d : List Thing} {t : Thing}
    (h : ∀ a ∈ d, a.subject ≠ t.subject) :
    d.filter (fun x => !(x.subject == t.subject)) = d := by
  apply List.filter_eq_self.mpr
  intro a ha
  simpa using h a ha

theorem foldl_setThing_of_disjoint : ∀ (rs d : List Thing),
    (∀ r ∈ rs, ∀ a ∈ d, a.subject ≠ r.subject) → WFThings rs →
    rs.foldl setThing d = d ++ rs := by
  intro rs
  induction rs with
  | nil =>
    intro d _ _
    simp
  | cons r rs ih =>
    intro d hdis hwf
    rw [List.foldl_cons]
    have h1 : setThing d r = d ++ [r] := by
      rw [setThing, filter_ne_subject_eq_self (fun a ha => hdis r (List.mem_cons_self r rs) a ha)]
    rw [h1, ih (d ++ [r]) ?_ ((List.pairwise_cons.mp hwf).2)]
    · rw [List.append_assoc]
      rfl
    · intro r2 hr2 a ha
      rcases List.mem_append.mp ha with ha | ha
      · exact hdis r2 (List.mem_cons_of_mem r hr2) a ha
      · have haa := List.mem_singleton.mp ha
        rw [haa]
        exact (List.pairwise_cons.mp hwf).1 r2 hr2

/-- C7: the ACL created from a fallback ACL grants, resource-scoped and for
every grantee, exactly what the fallback ACL granted default-scoped; only the
fallback's default rules are copied (resource-only rules are left behind). -/
theorem C7_createAclFromFallbackAcl_roundtrip (resource : ResourceWithAcl) (fb : AclDataset)
    (hfb : resource.fallbackAcl = some fb) (hwf : WFThings fb.things) :
    (∀ p g : Iri, p = acl_agent ∨ p = acl_agentGroup ∨ p = acl_agentClass →
      granteeResourceAccessVia (createAclFromFallbackAcl resource) p g =
        granteeDefaultAccessVia fb p g) ∧
    (∀ t ∈ (createAclFromFallbackAcl resource).things,
      ∃ r ∈ internal_getDefaultAclRulesForResource (internal_getAclRules fb)
          fb.internal_accessTo,
        t = setIri (removeAll (removeAll r acl_default) acl_defaultForNew) acl_accessTo
          resource.info.sourceIri) := by
  have hwfd : WFThings (internal_getDefaultAclRulesForResource (internal_getAclRules fb)
      fb.internal_accessTo) := by
    rw [internal_getDefaultAclRulesForResource, internal_getAclRules, getThingAll]
    exact List.Pairwise.sublist ((List.filter_sublist _).trans (List.filter_sublist _)) hwf
  have hwfm : WFThings ((internal_getDefaultAclRulesForResource (internal_getAclRules fb)
        fb.internal_accessTo).map
      (fun rule => setIri (removeAll (removeAll rule acl_default) acl_defaultForNew) acl_accessTo
        resource.info.sourceIri)) := by
    rw [WFThings, List.pairwise_map]
    exact hwfd.imp (fun h => h)
  have hthings : (createAclFromFallbackAcl resource).things =
      (internal_getDefaultAclRulesForResource (internal_getAclRules fb)
          fb.internal_accessTo).map
        (fun rule => setIri (removeAll (removeAll rule acl_default) acl_defaultForNew)
          acl_accessTo resource.info.sourceIri) := by
    simp only [createAclFromFallbackAcl, hfb, Option.getD_some, createAcl]
    rw [foldl_setThing_of_disjoint _ _ (fun r _ a ha => absurd ha (List.not_mem_nil a)) hwfm]
    rfl
  have haccess : (createAclFromFallbackAcl resource).internal_accessTo =
      resource.info.sourceIri := by
    simp only [createAclFromFallbackAcl, createAcl]
  constructor
  · intro p g hp
    have hpd : p ≠ acl_default := by
      rcases hp with rfl | rfl | rfl <;> decide
    have hpn : p ≠ acl_defaultForNew := by
      rcases hp with rfl | rfl | rfl <;> decide
    have hpa : p ≠ acl_accessTo := by
      rcases hp with rfl | rfl | rfl <;> decide
    have hkey : ∀ m : Iri, anyRuleR (createAclFromFallbackAcl resource) p g m =
        anyRuleD fb p g m := by
      intro m
      rw [anyRuleR, anyRuleD, hthings, haccess, list_any_map]
      rw [any_congr_mem (g := fun r => isAclRule r &&
        ((getIriAll r p).contains g && hasModeB m r)) ?hpoint]
      case hpoint =>
        intro r _
        rw [show isAclRule (setIri (removeAll (removeAll r acl_default) acl_defaultForNew)
            acl_accessTo resource.info.sourceIri) = isAclRule r from
          contains_c7transform r _ rdf_type acl_Authorization (by decide) (by decide) (by decide)]
        rw [appliesToResource_c7transform r resource.info.sourceIri]
        rw [contains_c7transform r _ p g hpd hpn hpa]
        rw [show hasModeB m (setIri (removeAll (removeAll r acl_default) acl_defaultForNew)
            acl_accessTo resource.info.sourceIri) = hasModeB m r from
          contains_c7transform r _ acl_mode m (by decide) (by decide) (by decide)]
        rw [Bool.true_and]
      rw [internal_getDefaultAclRulesForResource, internal_getAclRules, getThingAll,
        any_filter, any_filter]
      apply any_congr_mem
      intro t _
      cases h1 : isAclRule t <;> cases h2 : isDefaultForResource t fb.internal_accessTo <;>
        simp [h1, h2]
    rw [granteeResourceAccessVia_eq, granteeDefaultAccessVia_eq, hkey mode_Read,
      hkey mode_Append, hkey mode_Write, hkey mode_Control]
  · intro t ht
    rw [hthings] at ht
    rcases List.mem_map.mp ht with ⟨r, hr, hrt⟩
    exact ⟨r, hr, hrt.symm⟩

/-- Witness data for C7: a fallback ACL with one default rule and one
resource-only rule. -/
def c7Fb : AclDataset :=
  ⟨[⟨1, [⟨rdf_type, acl_Authorization⟩, ⟨acl_default, "https://pod/"⟩,
      ⟨acl_agent, "https://pod/me"⟩, ⟨acl_mode, mode_Read⟩]⟩,
    ⟨2, [⟨rdf_type, acl_Authorization⟩, ⟨acl_accessTo, "https://pod/"⟩,
      ⟨acl_agent, "https://pod/me"⟩, ⟨acl_mode, mode_Write⟩]⟩],
    "https://pod/", "https://pod/.acl"⟩

def c7Resource : ResourceWithAcl :=
  ⟨⟨"https://pod/doc", some "https://pod/doc.acl"⟩, none, some c7Fb⟩

theorem C7_createAclFromFallbackAcl_roundtrip_witness :
    granteeResourceAccessVia (createAclFromFallbackAcl c7Resource) acl_agent "https://pod/me" =
      granteeDefaultAccessVia c7Fb acl_agent "https://pod/me" :=
  (C7_createAclFromFallbackAcl_roundtrip c7Resource c7Fb rfl
    (by simp [WFThings, c7Fb, List.pairwise_cons])).1 acl_agent "https://pod/me" (Or.inl rfl)

theorem contains_getIriAll_false {t : Thing} {p o : Iri} :
    ((getIriAll t p).contains o) = false ↔ (⟨p, o⟩ : Quad) ∉ t.quads := by
  rw [← contains_getIriAll]
  cases h : (getIriAll t p).contains o <;> simp [h]

theorem getIri_isNone_false_of_mem {t : Thing} {p o : Iri} (h : (⟨p, o⟩ : Quad) ∈ t.quads) :
    (getIri t p).isNone = false := by
  cases hg : getIri t p
  · exact absurd h (getIri_eq_none.mp hg o)
  · rfl

theorem contains_setIri_ne {t : Thing} {p o p2 o2 : Iri} (h : p2 ≠ p) :
    ((getIriAll (setIri t p o) p2).contains o2) = ((getIriAll t p2).contains o2) := by
  rw [Bool.eq_iff_iff, contains_getIriAll, contains_getIriAll]
  simp [mem_setIri, Quad.mk.injEq, h]

theorem isEmptyAclRule_eq_false (t : Thing)
    (htar : ∃ o, (⟨acl_accessTo, o⟩ : Quad) ∈ t.quads ∨ (⟨acl_default, o⟩ : Quad) ∈ t.quads ∨
      (⟨acl_defaultForNew, o⟩ : Quad) ∈ t.quads)
    (hmode : ∃ o, (⟨acl_mode, o⟩ : Quad) ∈ t.quads)
    (hgr : ∃ o, (⟨acl_agent, o⟩ : Quad) ∈ t.quads ∨ (⟨acl_agentGroup, o⟩ : Quad) ∈ t.quads ∨
      (⟨acl_agentClass, o⟩ : Quad) ∈ t.quads) :
    isEmptyAclRule t = false := by
  have hB : ((getIri t acl_accessTo).isNone && (getIri t acl_default).isNone &&
      (getIri t acl_defaultForNew).isNone) = false := by
    rcases htar with ⟨o, h | h | h⟩ <;> simp [getIri_isNone_false_of_mem h]
  have hC : (getIri t acl_mode).isNone = false := by
    rcases hmode with ⟨o, h⟩
    exact getIri_isNone_false_of_mem h
  have hD : ((getIri t acl_agent).isNone && (getIri t acl_agentGroup).isNone &&
      (getIri t acl_agentClass).isNone) = false := by
    rcases hgr with ⟨o, h | h | h⟩ <;> simp [getIri_isNone_false_of_mem h]
  rw [isEmptyAclRule]
  cases hscan : t.quads.any (fun q => !(isAclQuad q)) <;> simp [hscan, hB, hC, hD]

theorem init_subject (M : Access) (n : Nat) :
    (internal_initialiseAclRule M n).subject = n := by
  cases M with
  | mk r a w c => cases r <;> cases a <;> cases w <;> cases c <;> rfl

theorem init_modes (M : Access) (n : Nat) :
    hasModeB mode_Read (internal_initialiseAclRule M n) = M.read ∧
    hasModeB mode_Append (internal_initialiseAclRule M n) = (M.append && !M.write) ∧
    hasModeB mode_Write (internal_initialiseAclRule M n) = M.write ∧
    hasModeB mode_Control (internal_initialiseAclRule M n) = M.control := by
  cases M with
  | mk r a w c => cases r <;> cases a <;> cases w <;> cases c <;> exact ⟨rfl, rfl, rfl, rfl⟩

theorem preds_addIri_mode {t : Thing} {o : Iri}
    (h : ∀ q ∈ t.quads, q.predicate = rdf_type ∨ q.predicate = acl_mode) :
    ∀ q ∈ (addIri t acl_mode o).quads, q.predicate = rdf_type ∨ q.predicate = acl_mode := by
  intro q hq
  rcases mem_addIri.mp hq with hq2 | hq3
  · exact h q hq2
  · rw [hq3]
    exact Or.inr rfl

theorem init_preds (M : Access) (n : Nat) :
    ∀ q ∈ (internal_initialiseAclRule M n).quads,
      q.predicate = rdf_type ∨ q.predicate = acl_mode := by
  have h0 : ∀ q ∈ (setIri (createThing n) rdf_type acl_Authorization).quads,
      q.predicate = rdf_type ∨ q.predicate = acl_mode := by
    intro q hq
    rcases mem_setIri.mp hq with ⟨hq2, _⟩ | hq3
    · exact absurd hq2 (List.not_mem_nil q)
    · rw [hq3]
      exact Or.inl rfl
  simp only [internal_initialiseAclRule]
  split
  all_goals split
  all_goals split
  all_goals split
  all_goals repeat (first | exact h0 | apply preds_addIri_mode)

theorem type_mem_addIri {t : Thing} {p o : Iri}
    (h : (⟨rdf_type, acl_Authorization⟩ : Quad) ∈ t.quads) :
    (⟨rdf_type, acl_Authorization⟩ : Quad) ∈ (addIri t p o).quads :=
  mem_addIri.mpr (Or.inl h)

theorem init_type_mem (M : Access) (n : Nat) :
    (⟨rdf_type, acl_Authorization⟩ : Quad) ∈ (internal_initialiseAclRule M n).quads := by
  have h0 : (⟨rdf_type, acl_Authorization⟩ : Quad) ∈
      (setIri (createThing n) rdf_type acl_Authorization).quads :=
    mem_setIri.mpr (Or.inr rfl)
  simp only [internal_initialiseAclRule]
  split
  all_goals split
  all_goals split
  all_goals split
  all_goals repeat (first | exact h0 | apply type_mem_addIri)

theorem init_allFalse_quads (n : Nat) :
    (internal_initialiseAclRule ⟨false, false, false, false⟩ n).quads =
      [⟨rdf_type, acl_Authorization⟩] := rfl

theorem foldl_addIri_subject (p : Iri) : ∀ (l : List Iri) (out : Thing),
    (l.foldl (fun out target => addIri out p target) out).subject = out.subject := by
  intro l
  induction l with
  | nil => intro out; rfl
  | cons o l ih => intro out; rw [List.foldl_cons, ih]; rfl

theorem copyIris_subject (i o : Thing) (p : Iri) : (copyIris i o p).subject = o.subject := by
  rw [copyIris, foldl_addIri_subject]

theorem dup_subject (t : Thing) (n : Nat) : (internal_duplicateAclRule t n).subject = n := by
  simp only [internal_duplicateAclRule]
  rw [copyIris_subject, copyIris_subject, copyIris_subject, copyIris_subject, copyIris_subject,
    copyIris_subject, copyIris_subject, copyIris_subject]
  rfl

theorem rPFR_pos_eq (t : Thing) (X : Iri) (s : RuleScope) (m : Nat)
    (h : ((getIriAll t acl_agentClass).contains foaf_Agent) = true) :
    removePublicFromRule t X s m =
      (removeIri t acl_agentClass foaf_Agent,
        removeIri
          (removeAll (removeAll (setIri (internal_duplicateAclRule t m) acl_agentClass foaf_Agent)
            acl_agent) acl_agentGroup)
          (match s with
            | RuleScope.resource => acl_accessTo
            | RuleScope.defaultScope => acl_default)
          X) := by
  have h2 : foaf_Agent ∈ getIriAll t acl_agentClass := by simpa using h
  simp [removePublicFromRule, h2]

theorem rPFR_neg_eq (t : Thing) (X : Iri) (s : RuleScope) (m : Nat)
    (h : ((getIriAll t acl_agentClass).contains foaf_Agent) = false) :
    removePublicFromRule t X s m =
      (t, internal_initialiseAclRule ⟨false, false, false, false⟩ m) := by
  have h2 : foaf_Agent ∉ getIriAll t acl_agentClass := by simpa using h
  simp [removePublicFromRule, h2]

theorem rPFR_fst_subject (t : Thing) (X : Iri) (s : RuleScope) (m : Nat) :
    (removePublicFromRule t X s m).1.subject = t.subject := by
  cases h : (getIriAll t acl_agentClass).contains foaf_Agent
  · rw [rPFR_neg_eq t X s m h]
  · rw [rPFR_pos_eq t X s m h]
    rfl

theorem rPFR_snd_subject (t : Thing) (X : Iri) (s : RuleScope) (m : Nat) :
    (removePublicFromRule t X s m).2.subject = m := by
  cases h : (getIriAll t acl_agentClass).contains foaf_Agent
  · rw [rPFR_neg_eq t X s m h]
    exact init_subject _ m
  · rw [rPFR_pos_eq t X s m h]
    show (removeIri _ _ _).subject = m
    rw [subject_removeIri, subject_removeAll, subject_removeAll, subject_setIri, dup_subject]

theorem rPFR_fst_fresh_independent (t : Thing) (X : Iri) (s : RuleScope) (m : Nat) :
    (removePublicFromRule t X s m).1 = (removePublicFromRule t X s 0).1 := by
  cases h : (getIriAll t acl_agentClass).contains foaf_Agent
  · rw [rPFR_neg_eq t X s m h, rPFR_neg_eq t X s 0 h]
  · rw [rPFR_pos_eq t X s m h, rPFR_pos_eq t X s 0 h]

theorem contains_rPFR_fst (t : Thing) (X : Iri) (s : RuleScope) (m : Nat) (p o : Iri)
    (hp : p ≠ acl_agentClass) :
    ((getIriAll (removePublicFromRule t X s m).1 p).contains o) =
      ((getIriAll t p).contains o) := by
  cases h : (getIriAll t acl_agentClass).contains foaf_Agent
  · rw [rPFR_neg_eq t X s m h]
  · rw [rPFR_pos_eq t X s m h]
    show ((getIriAll (removeIri t acl_agentClass foaf_Agent) p).contains o) = _
    rw [Bool.eq_iff_iff, contains_getIriAll, contains_getIriAll]
    simp [mem_removeIri, hp]

theorem rPFR_fst_no_public (t : Thing) (X : Iri) (s : RuleScope) (m : Nat) :
    ((getIriAll (removePublicFromRule t X s m).1 acl_agentClass).contains foaf_Agent) = false := by
  cases h : (getIriAll t acl_agentClass).contains foaf_Agent
  · rw [rPFR_neg_eq t X s m h]
    exact h
  · rw [rPFR_pos_eq t X s m h]
    show ((getIriAll (removeIri t acl_agentClass foaf_Agent) acl_agentClass).contains
      foaf_Agent) = false
    rw [contains_getIriAll_false]
    intro hmem
    exact (mem_removeIri.mp hmem).2 ⟨rfl, rfl⟩

theorem rPFR_snd_no_grantee (t : Thing) (X : Iri) (s : RuleScope) (m : Nat) (p g : Iri)
    (hp : p = acl_agent ∨ p = acl_agentGroup) :
    ((getIriAll (removePublicFromRule t X s m).2 p).contains g) = false := by
  rw [contains_getIriAll_false]
  intro hmem
  cases h : (getIriAll t acl_agentClass).contains foaf_Agent
  · rw [rPFR_neg_eq t X s m h] at hmem
    rw [show (t, internal_initialiseAclRule ⟨false, false, false, false⟩ m).2 =
      internal_initialiseAclRule ⟨false, false, false, false⟩ m from rfl,
      init_allFalse_quads] at hmem
    have hq := List.mem_singleton.mp hmem
    have hpred : p = rdf_type := congrArg Quad.predicate hq
    rcases hp with rfl | rfl <;> exact absurd hpred (by decide)
  · rw [rPFR_pos_eq t X s m h] at hmem
    rcases mem_removeIri.mp hmem with ⟨hm2, _⟩
    rcases mem_removeAll.mp hm2 with ⟨hm3, hne_group⟩
    rcases mem_removeAll.mp hm3 with ⟨_, hne_agent⟩
    rcases hp with rfl | rfl
    · exact hne_agent rfl
    · exact hne_group rfl

theorem rPFR_snd_not_applies (t : Thing) (X : Iri) (m : Nat) :
    appliesToResource (removePublicFromRule t X RuleScope.resource m).2 X = false := by
  rw [appliesToResource, contains_getIriAll_false]
  intro hmem
  cases h : (getIriAll t acl_agentClass).contains foaf_Agent
  · rw [rPFR_neg_eq t X RuleScope.resource m h] at hmem
    rw [show (t, internal_initialiseAclRule ⟨false, false, false, false⟩ m).2 =
      internal_initialiseAclRule ⟨false, false, false, false⟩ m from rfl,
      init_allFalse_quads] at hmem
    have hq := List.mem_singleton.mp hmem
    have hpred : acl_accessTo = rdf_type := congrArg Quad.predicate hq
    exact absurd hpred (by decide)
  · rw [rPFR_pos_eq t X RuleScope.resource m h] at hmem
    exact (mem_removeIri.mp hmem).2 ⟨rfl, rfl⟩

theorem subject_le_maxSubject : ∀ (l : List Thing) (a : Nat) (t : Thing), t ∈ l →
    t.subject ≤ l.foldl (fun m t => max m t.subject) a := by
  intro l
  induction l with
  | nil =>
    intro a t ht
    exact absurd ht (List.not_mem_nil t)
  | cons x l ih =>
    intro a t ht
    rw [List.foldl_cons]
    rcases List.mem_cons.mp ht with rfl | ht2
    · have h1 : t.subject ≤ max a t.subject := Nat.le_max_right a t.subject
      have h2 : ∀ b l2, b ≤ List.foldl (fun m (t : Thing) => max m t.subject) b l2 := by
        intro b l2
        induction l2 generalizing b with
        | nil => exact Nat.le_refl b
        | cons y l2 ih2 =>
          rw [List.foldl_cons]
          exact Nat.le_trans (Nat.le_max_left b y.subject) (ih2 _)
      exact Nat.le_trans h1 (h2 _ l)
    · exact ih _ t ht2

theorem subject_lt_freshBase (t : Thing) (l : List Thing) (h : t ∈ l) :
    t.subject < freshBase l := by
  rw [freshBase, maxSubject]
  exact Nat.lt_succ_of_le (subject_le_maxSubject l 0 t h)

/-- Filtered half of a split rule; it does not depend on the fresh subject. -/
def fRuleOf (X : Iri) (t : Thing) : Thing :=
  (removePublicFromRule t X RuleScope.resource 0).1

/-- Remainder half of a split rule, created at fresh subject `m`. -/
def remRuleOf (X : Iri) (t : Thing) (m : Nat) : Thing :=
  (removePublicFromRule t X RuleScope.resource m).2

/-- Fresh rule granting `M` to the public, as `setPublicResourceAccess`
creates it (its fresh subject is the dataset's fresh base plus the number of
split steps). -/
def newPublicRule (d : AclDataset) (M : Access) : Thing :=
  setIri
    (setIri (internal_initialiseAclRule M (freshBase d.things + d.things.length)) acl_accessTo
      d.internal_accessTo)
    acl_agentClass foaf_Agent

theorem fRuleOf_subject (X : Iri) (t : Thing) : (fRuleOf X t).subject = t.subject :=
  rPFR_fst_subject t X RuleScope.resource 0

theorem newPublicRule_subject (d : AclDataset) (M : Access) :
    (newPublicRule d M).subject = freshBase d.things + d.things.length := by
  rw [newPublicRule, subject_setIri, subject_setIri, init_subject]

theorem fold_counter (X : Iri) : ∀ (rest : List Thing) (d : List Thing) (n : Nat),
    (rest.foldl (setPublicStep X) (d, n)).2 = n + rest.length := by
  intro rest
  induction rest with
  | nil => intro d n; rfl
  | cons t rest ih =>
    intro d n
    rw [List.foldl_cons, setPublicStep, ih]
    simp only [List.length_cons]
    omega

theorem setThing_WF {d : List Thing} {t : Thing} (h : WFThings d) : WFThings (setThing d t) := by
  rw [WFThings, setThing]
  apply List.pairwise_append.mpr
  refine ⟨List.Pairwise.sublist (List.filter_sublist _) h, List.pairwise_singleton _ _, ?_⟩
  intro a ha b hb
  rcases List.mem_filter.mp ha with ⟨_, hpred⟩
  have hb2 := List.mem_singleton.mp hb
  rw [hb2]
  simpa using hpred

theorem fold_WF (X : Iri) : ∀ (rest : List Thing) (d : List Thing) (n : Nat), WFThings d →
    WFThings (rest.foldl (setPublicStep X) (d, n)).1 := by
  intro rest
  induction rest with
  | nil => intro d n h; exact h
  | cons t rest ih =>
    intro d n h
    rw [List.foldl_cons]
    exact ih _ _ (setThing_WF (setThing_WF h))

theorem fold_sound (X : Iri) (G : Thing → Prop) :
    ∀ (rest : List Thing) (d : List Thing) (n : Nat),
    (∀ t ∈ rest, ∀ m : Nat, G (removePublicFromRule t X RuleScope.resource m).1 ∧
      G (removePublicFromRule t X RuleScope.resource m).2) →
    (∀ x ∈ d, x ∈ rest ∨ G x) →
    ∀ x ∈ (rest.foldl (setPublicStep X) (d, n)).1, G x := by
  intro rest
  induction rest with
  | nil =>
    intro d n _ hinv x hx
    rcases hinv x hx with h | h
    · exact absurd h (List.not_mem_nil x)
    · exact h
  | cons t rest ih =>
    intro d n hG hinv x hx
    rw [List.foldl_cons] at hx
    refine ih _ _ (fun u hu => hG u (List.mem_cons_of_mem t hu)) ?_ x hx
    intro y hy
    simp only [setPublicStep] at hy
    rcases mem_setThing.mp hy with ⟨hy2, _⟩ | hy2
    · rcases mem_setThing.mp hy2 with ⟨hy3, hys⟩ | hy3
      · rcases hinv y hy3 with hmem | hG2
        · rcases List.mem_cons.mp hmem with hyt | hmem2
          · rw [rPFR_fst_subject] at hys
            rw [hyt] at hys
            exact absurd rfl hys
          · exact Or.inl hmem2
        · exact Or.inr hG2
      · rw [hy3]
        exact Or.inr (hG t (List.mem_cons_self t rest) n).1
    · rw [hy2]
      exact Or.inr (hG t (List.mem_cons_self t rest) n).2

theorem fold_keep (X : Iri) :
    ∀ (rest : List Thing) (d : List Thing) (n : Nat) (x : Thing),
    x ∈ d → x.subject < n → (∀ t ∈ rest, t.subject ≠ x.subject) →
    x ∈ (rest.foldl (setPublicStep X) (d, n)).1 := by
  intro rest
  induction rest with
  | nil =>
    intro d n x hx _ _
    exact hx
  | cons t rest ih =>
    intro d n x hx hlt hne
    rw [List.foldl_cons]
    refine ih _ _ x ?_ (by omega) (fun u hu => hne u (List.mem_cons_of_mem t hu))
    simp only [setPublicStep]
    refine mem_setThing.mpr (Or.inl ⟨mem_setThing.mpr (Or.inl ⟨hx, ?_⟩), ?_⟩)
    · rw [rPFR_fst_subject]
      exact fun hcon => hne t (List.mem_cons_self t rest) hcon.symm
    · rw [rPFR_snd_subject]
      omega

theorem fold_main_mem (X : Iri) :
    ∀ (rest : List Thing) (d : List Thing) (n : Nat),
    List.Pairwise (fun a b => a.subject ≠ b.subject) rest →
    (∀ t ∈ rest, t.subject < n) →
    ∀ t ∈ rest, fRuleOf X t ∈ (rest.foldl (setPublicStep X) (d, n)).1 := by
  intro rest
  induction rest with
  | nil =>
    intro d n _ _ t ht
    exact absurd ht (List.not_mem_nil t)
  | cons u rest ih =>
    intro d n hpw hlt t ht
    rw [List.foldl_cons]
    rcases List.mem_cons.mp ht with hteq | ht2
    · refine fold_keep X rest _ (n + 1) (fRuleOf X t) ?_ ?_ ?_
      · simp only [setPublicStep]
        refine mem_setThing.mpr (Or.inl ⟨mem_setThing.mpr (Or.inr ?_), ?_⟩)
        · rw [fRuleOf, hteq]
          exact (rPFR_fst_fresh_independent u X RuleScope.resource n).symm
        · rw [fRuleOf_subject, rPFR_snd_subject, hteq]
          exact Nat.ne_of_lt (hlt u (List.mem_cons_self u rest))
      · rw [fRuleOf_subject, hteq]
        exact Nat.lt_succ_of_lt (hlt u (List.mem_cons_self u rest))
      · intro u2 hu2
        rw [fRuleOf_subject, hteq]
        exact fun hcon => (List.pairwise_cons.mp hpw).1 u2 hu2 hcon.symm
    · exact ih _ (n + 1) (List.pairwise_cons.mp hpw).2
        (fun v hv => Nat.lt_succ_of_lt (hlt v (List.mem_cons_of_mem u hv))) t ht2

theorem setPublic_accessTo (d : AclDataset) (M : Access) :
    (setPublicResourceAccess d M).internal_accessTo = d.internal_accessTo := rfl

theorem setPublic_things (d : AclDataset) (M : Access) (hwf : WFThings d.things) :
    (setPublicResourceAccess d M).things =
      (setThing
        (d.things.foldl (setPublicStep d.internal_accessTo) (d.things, freshBase d.things)).1
        (newPublicRule d M)).filter (fun t => !(isAclRule t && isEmptyAclRule t)) := by
  have hcnt := fold_counter d.internal_accessTo d.things d.things (freshBase d.things)
  have hU : WFThings (setThing
      (d.things.foldl (setPublicStep d.internal_accessTo) (d.things, freshBase d.things)).1
      (newPublicRule d M)) :=
    setThing_WF (fold_WF _ _ _ _ hwf)
  have heq : setPublicResourceAccess d M = internal_removeEmptyAclRules
      { d with things := (setThing
          (d.things.foldl (setPublicStep d.internal_accessTo) (d.things, freshBase d.things)).1
          (newPublicRule d M)) } := by
    simp only [setPublicResourceAccess, getThingAll, newPublicRule]
    rw [hcnt]
  rw [heq, removeEmptyAclRules_things_eq _ hU]

theorem setPublic_mem_sound (d : AclDataset) (M : Access) (hwf : WFThings d.things) :
    ∀ x ∈ (setPublicResourceAccess d M).things,
      x = newPublicRule d M ∨ (∃ t ∈ d.things, x = fRuleOf d.internal_accessTo t) ∨
        (∃ t ∈ d.things, ∃ m : Nat, x = remRuleOf d.internal_accessTo t m) := by
  intro x hx
  rw [setPublic_things d M hwf] at hx
  rcases List.mem_filter.mp hx with ⟨hxU, _⟩
  rcases mem_setThing.mp hxU with ⟨hxF, _⟩ | hxnew
  · refine Or.inr (fold_sound d.internal_accessTo
      (fun y => (∃ t ∈ d.things, y = fRuleOf d.internal_accessTo t) ∨
        (∃ t ∈ d.things, ∃ m : Nat, y = remRuleOf d.internal_accessTo t m))
      d.things d.things (freshBase d.things) ?_ ?_ x hxF)
    · intro t ht m
      refine ⟨Or.inl ⟨t, ht, ?_⟩, Or.inr ⟨t, ht, m, rfl⟩⟩
      rw [fRuleOf]
      exact rPFR_fst_fresh_independent t d.internal_accessTo RuleScope.resource m
    · intro y hy
      exact Or.inl hy
  · exact Or.inl hxnew

theorem setPublic_mem_fRule (d : AclDataset) (M : Access) (hwf : WFThings d.things)
    (t : Thing) (ht : t ∈ d.things)
    (hkeep : (!(isAclRule (fRuleOf d.internal_accessTo t) &&
      isEmptyAclRule (fRuleOf d.internal_accessTo t))) = true) :
    fRuleOf d.internal_accessTo t ∈ (setPublicResourceAccess d M).things := by
  rw [setPublic_things d M hwf]
  refine List.mem_filter.mpr ⟨?_, hkeep⟩
  refine mem_setThing.mpr (Or.inl ⟨?_, ?_⟩)
  · exact fold_main_mem _ d.things d.things (freshBase d.things) hwf
      (fun v hv => subject_lt_freshBase v d.things hv) t ht
  · rw [fRuleOf_subject, newPublicRule_subject]
    have := subject_lt_freshBase t d.things ht
    omega

theorem setPublic_mem_newRule (d : AclDataset) (M : Access) (hwf : WFThings d.things)
    (hkeep : (!(isAclRule (newPublicRule d M) && isEmptyAclRule (newPublicRule d M))) = true) :
    newPublicRule d M ∈ (setPublicResourceAccess d M).things := by
  rw [setPublic_things d M hwf]
  exact List.mem_filter.mpr ⟨mem_setThing.mpr (Or.inr rfl), hkeep⟩

theorem newPublicRule_isAclRule (d : AclDataset) (M : Access) :
    isAclRule (newPublicRule d M) = true := by
  rw [isAclRule]
  apply contains_getIriAll.mpr
  apply mem_setIri.mpr
  refine Or.inl ⟨?_, ?_⟩
  · apply mem_setIri.mpr
    refine Or.inl ⟨init_type_mem M _, ?_⟩
    show rdf_type ≠ acl_accessTo
    decide
  · show rdf_type ≠ acl_agentClass
    decide

theorem newPublicRule_applies (d : AclDataset) (M : Access) :
    appliesToResource (newPublicRule d M) d.internal_accessTo = true := by
  rw [appliesToResource]
  apply contains_getIriAll.mpr
  apply mem_setIri.mpr
  refine Or.inl ⟨mem_setIri.mpr (Or.inr rfl), ?_⟩
  show acl_accessTo ≠ acl_agentClass
  decide

theorem newPublicRule_public (d : AclDataset) (M : Access) :
    ((getIriAll (newPublicRule d M) acl_agentClass).contains foaf_Agent) = true :=
  contains_getIriAll.mpr (mem_setIri.mpr (Or.inr rfl))

theorem newPublicRule_accessTo_mem (d : AclDataset) (M : Access) :
    (⟨acl_accessTo, d.internal_accessTo⟩ : Quad) ∈ (newPublicRule d M).quads := by
  apply mem_setIri.mpr
  refine Or.inl ⟨mem_setIri.mpr (Or.inr rfl), ?_⟩
  show acl_accessTo ≠ acl_agentClass
  decide

theorem newPublicRule_agentClass_mem (d : AclDataset) (M : Access) :
    (⟨acl_agentClass, foaf_Agent⟩ : Quad) ∈ (newPublicRule d M).quads :=
  mem_setIri.mpr (Or.inr rfl)

theorem newPublicRule_hasMode (d : AclDataset) (M : Access) (m : Iri) :
    hasModeB m (newPublicRule d M) =
      hasModeB m (internal_initialiseAclRule M (freshBase d.things + d.things.length)) := by
  rw [newPublicRule, hasModeB, hasModeB, contains_setIri_ne (by decide),
    contains_setIri_ne (by decide)]

theorem newPublicRule_no_grantee (d : AclDataset) (M : Access) (p g : Iri)
    (hp : p = acl_agent ∨ p = acl_agentGroup) :
    ((getIriAll (newPublicRule d M) p).contains g) = false := by
  rw [contains_getIriAll_false]
  intro hmem
  rcases mem_setIri.mp hmem with ⟨hm2, _⟩ | heq
  · rcases mem_setIri.mp hm2 with ⟨hm3, _⟩ | heq2
    · have hq := init_preds M _ _ hm3
      have hq2 : p = rdf_type ∨ p = acl_mode := hq
      rcases hq2 with hq3 | hq3 <;> (rcases hp with rfl | rfl <;> revert hq3 <;> decide)
    · have hpe : p = acl_accessTo := congrArg Quad.predicate heq2
      rcases hp with rfl | rfl <;> revert hpe <;> decide
  · have hpe : p = acl_agentClass := congrArg Quad.predicate heq
    rcases hp with rfl | rfl <;> revert hpe <;> decide

/-- C2: setting the public's resource access never changes the effective
access of any agent (via acl:agent) or group (via acl:agentGroup), in either
the resource scope or the default scope. -/
theorem C2_setPublicResourceAccess_frame (d : AclDataset) (M : Access) (p g : Iri)
    (hwf : WFThings d.things) (hp : p = acl_agent ∨ p = acl_agentGroup) :
    granteeResourceAccessVia (setPublicResourceAccess d M) p g =
      granteeResourceAccessVia d p g ∧
    granteeDefaultAccessVia (setPublicResourceAccess d M) p g =
      granteeDefaultAccessVia d p g := by
  have hpne : p ≠ acl_agentClass := by rcases hp with rfl | rfl <;> decide
  have hf_acl : ∀ t : Thing, isAclRule (fRuleOf d.internal_accessTo t) = isAclRule t := by
    intro t
    rw [isAclRule, isAclRule, fRuleOf, contains_rPFR_fst _ _ _ _ _ _ (by decide)]
  have hf_app : ∀ t : Thing,
      appliesToResource (fRuleOf d.internal_accessTo t) d.internal_accessTo =
        appliesToResource t d.internal_accessTo := by
    intro t
    rw [appliesToResource, appliesToResource, fRuleOf,
      contains_rPFR_fst _ _ _ _ _ _ (by decide)]
  have hf_def : ∀ t : Thing,
      isDefaultForResource (fRuleOf d.internal_accessTo t) d.internal_accessTo =
        isDefaultForResource t d.internal_accessTo := by
    intro t
    rw [isDefaultForResource, isDefaultForResource, fRuleOf,
      contains_rPFR_fst _ _ _ _ _ _ (by decide), contains_rPFR_fst _ _ _ _ _ _ (by decide)]
  have hf_gr : ∀ t : Thing, ((getIriAll (fRuleOf d.internal_accessTo t) p).contains g) =
      ((getIriAll t p).contains g) := by
    intro t
    rw [fRuleOf, contains_rPFR_fst _ _ _ _ _ _ hpne]
  have hf_mode : ∀ (t : Thing) (m : Iri),
      hasModeB m (fRuleOf d.internal_accessTo t) = hasModeB m t := by
    intro t m
    rw [hasModeB, hasModeB, fRuleOf, contains_rPFR_fst _ _ _ _ _ _ (by decide)]
  have hkeepf : ∀ (t : Thing) (m : Iri),
      isAclRule (fRuleOf d.internal_accessTo t) = true →
      ((getIriAll (fRuleOf d.internal_accessTo t) p).contains g) = true →
      hasModeB m (fRuleOf d.internal_accessTo t) = true →
      (appliesToResource (fRuleOf d.internal_accessTo t) d.internal_accessTo = true ∨
        isDefaultForResource (fRuleOf d.internal_accessTo t) d.internal_accessTo = true) →
      (!(isAclRule (fRuleOf d.internal_accessTo t) &&
        isEmptyAclRule (fRuleOf d.internal_accessTo t))) = true := by
    intro t m h1 h3 h4 h2
    have hempty : isEmptyAclRule (fRuleOf d.internal_accessTo t) = false := by
      apply isEmptyAclRule_eq_false
      · rcases h2 with h2 | h2
        · rw [appliesToResource] at h2
          exact ⟨d.internal_accessTo, Or.inl (contains_getIriAll.mp h2)⟩
        · rw [isDefaultForResource] at h2
          rcases (Bool.or_eq_true _ _).mp h2 with h2b | h2b
          · exact ⟨d.internal_accessTo, Or.inr (Or.inl (contains_getIriAll.mp h2b))⟩
          · exact ⟨d.internal_accessTo, Or.inr (Or.inr (contains_getIriAll.mp h2b))⟩
      · rw [hasModeB] at h4
        exact ⟨m, contains_getIriAll.mp h4⟩
      · rcases hp with rfl | rfl
        · exact ⟨g, Or.inl (contains_getIriAll.mp h3)⟩
        · exact ⟨g, Or.inr (Or.inl (contains_getIriAll.mp h3))⟩
    rw [hempty]
    simp
  have hR : ∀ m : Iri, anyRuleR (setPublicResourceAccess d M) p g m = anyRuleR d p g m := by
    intro m
    simp only [anyRuleR, setPublic_accessTo]
    rw [Bool.eq_iff_iff, List.any_eq_true, List.any_eq_true]
    constructor
    · rintro ⟨x, hx, hQ⟩
      simp only [Bool.and_eq_true] at hQ
      obtain ⟨h1, h2, h3, h4⟩ := hQ
      rcases setPublic_mem_sound d M hwf x hx with hnew | ⟨t, ht, hxf⟩ | ⟨t, ht, m2, hxr⟩
      · rw [hnew, newPublicRule_no_grantee d M p g hp] at h3
        simp at h3
      · refine ⟨t, ht, ?_⟩
        simp only [Bool.and_eq_true]
        rw [hxf] at h1 h2 h3 h4
        rw [hf_acl] at h1
        rw [hf_app] at h2
        rw [hf_gr] at h3
        rw [hf_mode] at h4
        exact ⟨h1, h2, h3, h4⟩
      · rw [hxr, remRuleOf, rPFR_snd_no_grantee _ _ _ _ _ _ hp] at h3
        simp at h3
    · rintro ⟨t, ht, hQ⟩
      simp only [Bool.and_eq_true] at hQ
      obtain ⟨h1, h2, h3, h4⟩ := hQ
      have h1f : isAclRule (fRuleOf d.internal_accessTo t) = true := by
        rw [hf_acl]
        exact h1
      have h2f : appliesToResource (fRuleOf d.internal_accessTo t) d.internal_accessTo = true := by
        rw [hf_app]
        exact h2
      have h3f : ((getIriAll (fRuleOf d.internal_accessTo t) p).contains g) = true := by
        rw [hf_gr]
        exact h3
      have h4f : hasModeB m (fRuleOf d.internal_accessTo t) = true := by
        rw [hf_mode]
        exact h4
      refine ⟨fRuleOf d.internal_accessTo t,
        setPublic_mem_fRule d M hwf t ht (hkeepf t m h1f h3f h4f (Or.inl h2f)), ?_⟩
      simp only [Bool.and_eq_true]
      exact ⟨h1f, h2f, h3f, h4f⟩
  have hD : ∀ m : Iri, anyRuleD (setPublicResourceAccess d M) p g m = anyRuleD d p g m := by
    intro m
    simp only [anyRuleD, setPublic_accessTo]
    rw [Bool.eq_iff_iff, List.any_eq_true, List.any_eq_true]
    constructor
    · rintro ⟨x, hx, hQ⟩
      simp only [Bool.and_eq_true] at hQ
      obtain ⟨h1, h2, h3, h4⟩ := hQ
      rcases setPublic_mem_sound d M hwf x hx with hnew | ⟨t, ht, hxf⟩ | ⟨t, ht, m2, hxr⟩
      · rw [hnew, newPublicRule_no_grantee d M p g hp] at h3
        simp at h3
      · refine ⟨t, ht, ?_⟩
        simp only [Bool.and_eq_true]
        rw [hxf] at h1 h2 h3 h4
        rw [hf_acl] at h1
        rw [hf_def] at h2
        rw [hf_gr] at h3
        rw [hf_mode] at h4
        exact ⟨h1, h2, h3, h4⟩
      · rw [hxr, remRuleOf, rPFR_snd_no_grantee _ _ _ _ _ _ hp] at h3
        simp at h3
    · rintro ⟨t, ht, hQ⟩
      simp only [Bool.and_eq_true] at hQ
      obtain ⟨h1, h2, h3, h4⟩ := hQ
      have h1f : isAclRule (fRuleOf d.internal_accessTo t) = true := by
        rw [hf_acl]
        exact h1
      have h2f : isDefaultForResource (fRuleOf d.internal_accessTo t) d.internal_accessTo
          = true := by
        rw [hf_def]
        exact h2
      have h3f : ((getIriAll (fRuleOf d.internal_accessTo t) p).contains g) = true := by
        rw [hf_gr]
        exact h3
      have h4f : hasModeB m (fRuleOf d.internal_accessTo t) = true := by
        rw [hf_mode]
        exact h4
      refine ⟨fRuleOf d.internal_accessTo t,
        setPublic_mem_fRule d M hwf t ht (hkeepf t m h1f h3f h4f (Or.inr h2f)), ?_⟩
      simp only [Bool.and_eq_true]
      exact ⟨h1f, h2f, h3f, h4f⟩
  constructor
  · rw [granteeResourceAccessVia_eq, granteeResourceAccessVia_eq, hR mode_Read, hR mode_Append,
      hR mode_Write, hR mode_Control]
  · rw [granteeDefaultAccessVia_eq, granteeDefaultAccessVia_eq, hD mode_Read, hD mode_Append,
      hD mode_Write, hD mode_Control]

/-- Witness data for C2: a rule granting both a group and the public write
access to the resource. -/
def c2Data : AclDataset :=
  ⟨[⟨1, [⟨rdf_type, acl_Authorization⟩, ⟨acl_accessTo, "https://pod/x"⟩,
      ⟨acl_agentGroup, "https://pod/g"⟩, ⟨acl_agentClass, foaf_Agent⟩,
      ⟨acl_mode, mode_Write⟩]⟩],
    "https://pod/x", "https://pod/x.acl"⟩

theorem C2_setPublicResourceAccess_frame_witness :
    granteeResourceAccessVia (setPublicResourceAccess c2Data ⟨true, false, false, false⟩)
        acl_agentGroup "https://pod/g" =
      granteeResourceAccessVia c2Data acl_agentGroup "https://pod/g" :=
  (C2_setPublicResourceAccess_frame c2Data ⟨true, false, false, false⟩ acl_agentGroup
    "https://pod/g" (by simp [WFThings, c2Data]) (Or.inr rfl)).1

theorem getPublicResourceAccess_eq_grantee (d : AclDataset) :
    getPublicResourceAccess d = granteeResourceAccessVia d acl_agentClass foaf_Agent := by
  rw [getPublicResourceAccess, granteeResourceAccessVia, getClassAclRulesForClass,
    internal_getAclRulesForIri]
  rfl

/-- C1: setPublicResourceAccess overwrites: the effective public resource
access of the resulting rule-set is exactly the requested mode set (for mode
sets satisfying the Access type's write-implies-append constraint). -/
theorem C1_setPublicResourceAccess_exact (d : AclDataset) (M : Access)
    (hwf : WFThings d.things) (hM : M.write = true → M.append = true) :
    getPublicResourceAccess (setPublicResourceAccess d M) = M := by
  have hkey : ∀ m : Iri, anyRuleR (setPublicResourceAccess d M) acl_agentClass foaf_Agent m =
      hasModeB m (newPublicRule d M) := by
    intro m
    simp only [anyRuleR, setPublic_accessTo]
    rw [Bool.eq_iff_iff, List.any_eq_true]
    constructor
    · rintro ⟨x, hx, hQ⟩
      simp only [Bool.and_eq_true] at hQ
      obtain ⟨h1, h2, h3, h4⟩ := hQ
      rcases setPublic_mem_sound d M hwf x hx with hnew | ⟨t, ht, hxf⟩ | ⟨t, ht, m2, hxr⟩
      · rw [hnew] at h4
        exact h4
      · rw [hxf, fRuleOf, rPFR_fst_no_public] at h3
        simp at h3
      · rw [hxr, remRuleOf, rPFR_snd_not_applies] at h2
        simp at h2
    · intro hm
      have hQnew : (isAclRule (newPublicRule d M) &&
          (appliesToResource (newPublicRule d M) d.internal_accessTo &&
            (((getIriAll (newPublicRule d M) acl_agentClass).contains foaf_Agent) &&
              hasModeB m (newPublicRule d M)))) = true := by
        rw [newPublicRule_isAclRule, newPublicRule_applies, newPublicRule_public, hm]
        rfl
      have hkeep : (!(isAclRule (newPublicRule d M) &&
          isEmptyAclRule (newPublicRule d M))) = true := by
        have hmode2 : ((getIriAll (newPublicRule d M) acl_mode).contains m) = true := by
          rw [← hasModeB]
          exact hm
        have hempty : isEmptyAclRule (newPublicRule d M) = false := by
          apply isEmptyAclRule_eq_false
          · exact ⟨d.internal_accessTo, Or.inl (newPublicRule_accessTo_mem d M)⟩
          · exact ⟨m, contains_getIriAll.mp hmode2⟩
          · exact ⟨foaf_Agent, Or.inr (Or.inr (newPublicRule_agentClass_mem d M))⟩
        rw [hempty]
        simp
      exact ⟨newPublicRule d M, setPublic_mem_newRule d M hwf hkeep, hQnew⟩
  rw [getPublicResourceAccess_eq_grantee, granteeResourceAccessVia_eq, hkey mode_Read,
    hkey mode_Append, hkey mode_Write, hkey mode_Control]
  rw [newPublicRule_hasMode, newPublicRule_hasMode, newPublicRule_hasMode, newPublicRule_hasMode]
  obtain ⟨hr, ha, hw, hc⟩ := init_modes M (freshBase d.things + d.things.length)
  rw [hr, ha, hw, hc]
  refine Access.ext4 _ _ ?_ ?_ ?_ ?_ <;> simp only
  cases hwr : M.write
  · simp [hwr]
  · simp [hwr, hM hwr]

/-- Witness data for C1: the spec's scenario — an ACL already granting
control to the public, overwritten with read-only public access. -/
def c1Data : AclDataset :=
  ⟨[⟨1, [⟨rdf_type, acl_Authorization⟩, ⟨acl_accessTo, "https://pod/x"⟩,
      ⟨acl_agentClass, foaf_Agent⟩, ⟨acl_mode, mode_Control⟩]⟩],
    "https://pod/x", "https://pod/x.acl"⟩

theorem C1_setPublicResourceAccess_exact_witness :
    getPublicResourceAccess (setPublicResourceAccess c1Data ⟨true, false, false, false⟩) =
      ⟨true, false, false, false⟩ :=
  C1_setPublicResourceAccess_exact c1Data ⟨true, false, false, false⟩
    (by simp [WFThings, c1Data]) (by intro h; exact absurd h (by decide))
